import Mathlib

/-!
Verification of the free-text response aggregation and clustering engine
(`TextAggregator` in `scripts/FINAI-95/aiProcessorUI.js`).

The JavaScript source is shallowly embedded:
* JS strings are Lean `String`s; the JS string operations actually used by the
  engine (`trim`, `toLowerCase`, `split(/\s+/)`, `split('_')`, `length`, …) are
  re-implemented here on `List Char` so that they are fully kernel-computable.
  The surveyed texts are plain ASCII, where Lean code points and JS UTF-16
  units agree; `toLowerCase` is modelled on the ASCII range.
* JS `number` arithmetic on the similarity scores is modelled by exact
  fractions (`Frac`, an unnormalised `Int` numerator/denominator pair), which
  the kernel can evaluate; claim-facing statements read scores back into `ℚ`
  through `Frac.toRat`.
* JS `Set` objects are modelled by duplicate-free `List`s in insertion order.
* Fallible JS code (property access on `null`/`undefined`, calling `.split`
  on a non-string) is modelled in `Except String`.
-/

/-- Exact fraction model of the JS floating point values used by the engine
(similarity scores, average lengths, rounded statistics).  No normalisation is
performed so that every operation is plain `Int` arithmetic. -/
structure Frac where
  num : Int
  den : Int
deriving DecidableEq, Repr

def Frac.ofNat (n : Nat) : Frac := ⟨n, 1⟩

def Frac.add (a b : Frac) : Frac := ⟨a.num * b.den + b.num * a.den, a.den * b.den⟩

def Frac.sub (a b : Frac) : Frac := ⟨a.num * b.den - b.num * a.den, a.den * b.den⟩

def Frac.mul (a b : Frac) : Frac := ⟨a.num * b.num, a.den * b.den⟩

def Frac.div (a b : Frac) : Frac := ⟨a.num * b.den, a.den * b.num⟩

/-- Comparison by cross multiplication; coincides with the rational order
whenever both denominators are positive (which holds everywhere the engine
compares scores). -/
def Frac.blt (a b : Frac) : Bool := a.num * b.den < b.num * a.den

def Frac.toRat (a : Frac) : ℚ := (a.num : ℚ) / (a.den : ℚ)

/-- JS whitespace class `\s` (code points recognised by `trim`, `split(/\s+/)`
and friends). -/
def wsChar (c : Char) : Bool :=
  c.toNat ∈ [9, 10, 11, 12, 13, 32, 160, 0x1680, 0x2000, 0x2001, 0x2002,
    0x2003, 0x2004, 0x2005, 0x2006, 0x2007, 0x2008, 0x2009, 0x200a, 0x2028,
    0x2029, 0x202f, 0x205f, 0x3000, 0xfeff]

/-- The ASCII case table behind `String.prototype.toLowerCase` (the only
case mapping the surveyed data exercises). -/
def asciiLowerPairs : List (Char × Char) :=
  [('A', 'a'), ('B', 'b'), ('C', 'c'), ('D', 'd'), ('E', 'e'), ('F', 'f'),
   ('G', 'g'), ('H', 'h'), ('I', 'i'), ('J', 'j'), ('K', 'k'), ('L', 'l'),
   ('M', 'm'), ('N', 'n'), ('O', 'o'), ('P', 'p'), ('Q', 'q'), ('R', 'r'),
   ('S', 's'), ('T', 't'), ('U', 'u'), ('V', 'v'), ('W', 'w'), ('X', 'x'),
   ('Y', 'y'), ('Z', 'z')]

def jsLowerChar (c : Char) : Char :=
  match asciiLowerPairs.lookup c with
  | some d => d
  | none => c

def jsLower (s : String) : String := ⟨s.data.map jsLowerChar⟩

def trimList (l : List Char) : List Char :=
  ((l.dropWhile wsChar).reverse.dropWhile wsChar).reverse

/-- `String.prototype.trim`. -/
def jsTrim (s : String) : String := ⟨trimList s.data⟩

/-- `String.prototype.split(/\s+/)`: separators are maximal whitespace runs; a
leading or trailing run contributes an empty piece, exactly as in JS.  The
`inSep` flag tracks whether the scan is inside a separator run (so the piece
before it has already been emitted). -/
def jsSplitWsAux : List Char → List Char → Bool → List (List Char)
  | [], cur, _ => [cur.reverse]
  | c :: cs, cur, inSep =>
    if wsChar c then
      if inSep then jsSplitWsAux cs [] true
      else cur.reverse :: jsSplitWsAux cs [] true
    else jsSplitWsAux cs (c :: cur) false

def jsSplitWs (s : String) : List String := (jsSplitWsAux s.data [] false).map String.mk

/-- `String.prototype.split(sep)` for a one-character separator: every
occurrence splits, empty pieces are kept. -/
def jsSplitCharAux (sep : Char) : List Char → List Char → List (List Char)
  | [], cur => [cur.reverse]
  | c :: cs, cur =>
    if c = sep then cur.reverse :: jsSplitCharAux sep cs []
    else jsSplitCharAux sep cs (c :: cur)

def jsSplitChar (sep : Char) (s : String) : List String :=
  (jsSplitCharAux sep s.data []).map String.mk

/-- `[...new Set(l)]` with the already emitted elements accumulated in
`seen`. -/
def jsDedupGo {α : Type} [DecidableEq α] : List α → List α → List α
  | [], _ => []
  | x :: xs, seen =>
    if x ∈ seen then jsDedupGo xs seen else x :: jsDedupGo xs (x :: seen)

/-- `[...new Set(l)]`: deduplication keeping the first occurrence, in order. -/
def jsDedup {α : Type} [DecidableEq α] (l : List α) : List α := jsDedupGo l []

/-- `Set.prototype.add`: append unless already present. -/
def jsInsert {α : Type} [DecidableEq α] (l : List α) (x : α) : List α :=
  if x ∈ l then l else l ++ [x]

/-- JS regex word character class `\w` (for `\b` boundaries). -/
def wordChar (c : Char) : Bool :=
  decide ((65 ≤ c.toNat ∧ c.toNat ≤ 90) ∨ (97 ≤ c.toNat ∧ c.toNat ≤ 122) ∨
    (48 ≤ c.toNat ∧ c.toNat ≤ 57) ∨ c = '_')

/-- Characters an un-flagged `.` may match (anything but a line terminator). -/
def gapChar (c : Char) : Bool := decide (c.toNat ∉ [10, 13, 0x2028, 0x2029])

/-- After the first literal of a `lit₁.*lit₂.*…` regex has been placed, the
remaining literals must occur in order with only `gapChar`s skipped.  Each
step consumes either one input character or one literal, so the supplied fuel
`s.length + segs.length + 1` never runs out. -/
def matchNoNlF : Nat → List Char → List (List Char) → Bool
  | _, _, [] => true
  | 0, _, _ :: _ => false
  | fuel + 1, s, seg :: rest =>
    if seg.isEmpty then matchNoNlF fuel s rest
    else
      (seg.isPrefixOf s && matchNoNlF fuel (s.drop seg.length) rest) ||
      (match s with
       | [] => false
       | c :: cs => gapChar c && matchNoNlF fuel cs (seg :: rest))

def matchNoNl (s : List Char) (segs : List (List Char)) : Bool :=
  matchNoNlF (s.length + segs.length + 1) s segs

/-- `RegExp.prototype.test` for the header-matching regexes: all of them are
sequences of literals joined by `.*` (the first literal may start anywhere). -/
def segsSearch : List Char → List (List Char) → Bool
  | _, [] => true
  | [], seg :: rest => if seg.isEmpty then matchNoNl [] rest else false
  | c :: cs, seg :: rest =>
    (if seg.isEmpty then matchNoNl (c :: cs) rest
     else seg.isPrefixOf (c :: cs) && matchNoNl ((c :: cs).drop seg.length) rest) ||
    segsSearch cs (seg :: rest)

/-- A category header pattern with the `i` flag, applied to a key. -/
def patternTest (segs : List String) (key : String) : Bool :=
  segsSearch (key.data.map jsLowerChar) (segs.map String.data)

def boundaryOk (l : List Char) : Bool :=
  match l.head? with
  | none => true
  | some d => !wordChar d

/-- One pass of `replace(new RegExp(`\b${short}\b`, 'g'), full)`.  Matching is
performed left to right on the original string; after a match the scan resumes
past it (the table's keys end in a word character, hence the `true`). -/
def replaceWWAux (shortL full : List Char) : Nat → List Char → Bool → List Char
  | _, [], _ => []
  | 0, l, _ => l
  | fuel + 1, c :: cs, prevWord =>
    if shortL.isEmpty then c :: cs
    else if !prevWord && shortL.isPrefixOf (c :: cs) &&
        boundaryOk ((c :: cs).drop shortL.length) then
      full ++ replaceWWAux shortL full fuel ((c :: cs).drop shortL.length) true
    else c :: replaceWWAux shortL full fuel cs (wordChar c)

def jsReplaceWholeWord (s shortW fullW : String) : String :=
  ⟨replaceWWAux shortW.data fullW.data s.data.length s.data false⟩

/-- `replace(/\ba(b+)\b/gi, '')` — the shape of the filler-stripping regexes
(`uh+`, `um+`, `er+`).  Greedy matching of the repeated letter agrees with the
regex because backtracking can never repair a failed trailing boundary. -/
def removeFillerAux (a b : Char) : Nat → List Char → Bool → List Char
  | _, [], _ => []
  | 0, l, _ => l
  | fuel + 1, c :: cs, prevWord =>
    if !prevWord && jsLowerChar c == a then
      if (cs.takeWhile (fun x => jsLowerChar x == b)).isEmpty then
        c :: removeFillerAux a b fuel cs (wordChar c)
      else if boundaryOk (cs.drop (cs.takeWhile (fun x => jsLowerChar x == b)).length) then
        removeFillerAux a b fuel (cs.drop (cs.takeWhile (fun x => jsLowerChar x == b)).length) true
      else c :: removeFillerAux a b fuel cs (wordChar c)
    else c :: removeFillerAux a b fuel cs (wordChar c)

def jsRemoveFiller (a b : Char) (s : String) : String :=
  ⟨removeFillerAux a b s.data.length s.data false⟩

/-- `replace(/\s{2,}/g, '')`: a run of two or more whitespace characters is
deleted; an isolated whitespace character is untouched.  (The source intends
to collapse runs to a single space, but its `pattern === /\s{2,}/g` guard
compares against a freshly allocated regex object and is therefore always
false, so the run is replaced by the empty string like the fillers.) -/
def stripWsRunsAux : Nat → List Char → List Char
  | _, [] => []
  | 0, l => l
  | fuel + 1, c :: cs =>
    if wsChar c then
      if (cs.takeWhile wsChar).isEmpty then c :: stripWsRunsAux fuel cs
      else stripWsRunsAux fuel (cs.drop (cs.takeWhile wsChar).length)
    else c :: stripWsRunsAux fuel cs

def jsStripWsRuns (s : String) : String := ⟨stripWsRunsAux s.data.length s.data⟩

/-- `String.prototype.lastIndexOf` for a single character (−1 when absent). -/
def jsLastIndexOf (l : List Char) (c : Char) : Int :=
  match l.reverse.findIdx? (fun x => x == c) with
  | none => -1
  | some i => (l.length : Int) - 1 - (i : Int)

/-- JS `String.prototype.length` (UTF-16 units; the surveyed data is in the
basic plane, where this equals the code point count). -/
def jsLength (s : String) : Nat := s.data.length

/-- JS array `join(sep)`. -/
def joinSep (sep : String) : List String → String
  | [] => ""
  | [x] => x
  | x :: xs => x ++ sep ++ joinSep sep xs

/-- String branch of `TextAggregator.isValidTextResponse`: the denylist
regexes applied to `value.toLowerCase().trim()`, then the length gate
`value.trim().length > 8`. -/
def isValidTextString (value : String) : Bool :=
  let normalized := jsTrim (jsLower value)
  if normalized = "n/a" ∨ normalized = "na" ∨ normalized = "none" ∨
      normalized = "no" ∨ normalized = "nothing" ∨ normalized = "nil" ∨
      (normalized.data ≠ [] ∧ normalized.data.all (fun c => c == '-')) ∨
      (normalized.data ≠ [] ∧ normalized.data.all (fun c => c == '.')) ∨
      normalized = "not applicable" ∨ normalized = "no comment" ∨
      normalized = "nope" ∨ normalized = "nada" then
    false
  else
    decide (jsLength (jsTrim value) > 8)

/-- The abbreviation table of `TextAggregator.normalizeForClustering`. -/
def normalizations : List (String × String) :=
  [("mgmt", "management"), ("mgr", "manager"), ("comm", "communication"),
   ("dev", "development"), ("info", "information"), ("tech", "technology"),
   ("sys", "system"), ("proc", "process"), ("dept", "department"),
   ("org", "organization")]

/-- `TextAggregator.normalizeForClustering`. -/
def normalizeForClustering (text : String) : String :=
  normalizations.foldl (fun acc p => jsReplaceWholeWord acc p.1 p.2) (jsLower text)

/-- The semantic category dictionaries of `TextAggregator.extractSemanticTokens`. -/
def semanticCategories : List (String × List String) :=
  [("communication", ["communication", "talk", "discuss", "share", "inform",
      "update", "meeting", "feedback", "transparency"]),
   ("tools", ["tools", "software", "system", "technology", "platform",
      "equipment", "resources", "application"]),
   ("development", ["training", "learning", "development", "skills",
      "education", "growth", "course", "mentor"]),
   ("process", ["process", "procedure", "workflow", "efficiency", "streamline",
      "bureaucracy", "red_tape"]),
   ("management", ["management", "manager", "leadership", "supervisor", "boss",
      "lead", "director"]),
   ("culture", ["culture", "environment", "atmosphere", "team",
      "collaboration", "morale", "values"]),
   ("recognition", ["recognition", "appreciate", "acknowledge", "reward",
      "praise", "thanks", "credit"]),
   ("autonomy", ["autonomy", "freedom", "decision", "empowered", "control",
      "choice", "independence"]),
   ("workload", ["workload", "busy", "overwhelmed", "balance", "time",
      "bandwidth", "capacity", "stress"]),
   ("clarity", ["clarity", "clear", "understand", "direction", "goals",
      "expectations", "vision", "purpose"])]

/-- `TextAggregator.extractSemanticTokens`. -/
def extractSemanticTokens (text : String) : List String :=
  let words := jsSplitWs (jsLower text)
  let tokens := (semanticCategories.filter
    (fun p => p.2.any (fun keyword => words.contains keyword))).map Prod.fst
  let importantWords := words.filter (fun w =>
    jsLength w > 5 &&
      !(["better", "would", "could", "should", "really", "think"].contains w))
  jsDedup (tokens ++ importantWords.take 3)

/-- The theme keyword dictionaries of `TextAggregator.enhancedExtractTheme`,
verbatim — including the repeated `"culture"` entry of
`culture_environment`, which the scoring counts twice. -/
def themeKeywords : List (String × List String) :=
  [("communication_transparency", ["communication", "communicate", "talk",
      "discuss", "share", "inform", "update", "transparency", "information",
      "feedback", "meeting", "clarity", "clear"]),
   ("tools_technology", ["tools", "software", "system", "technology",
      "equipment", "resources", "platform", "application", "technical",
      "tech", "digital", "infrastructure"]),
   ("training_development", ["training", "learn", "development", "skills",
      "education", "growth", "course", "mentor", "knowledge", "professional",
      "career", "advancement"]),
   ("recognition_appreciation", ["recognition", "appreciate", "acknowledge",
      "reward", "praise", "thanks", "credit", "valued", "recognized",
      "celebration"]),
   ("autonomy_empowerment", ["autonomy", "freedom", "decision", "empowered",
      "control", "choice", "independence", "empower", "decisions",
      "authority", "ownership"]),
   ("process_efficiency", ["process", "procedure", "workflow", "efficiency",
      "streamline", "bureaucracy", "improve", "optimization", "faster",
      "easier", "simple"]),
   ("leadership_management", ["leadership", "management", "manager", "leader",
      "supervisor", "boss", "direction", "guidance", "support", "lead"]),
   ("workload_balance", ["workload", "busy", "overwhelmed", "balance", "time",
      "bandwidth", "capacity", "stress", "pressure", "deadline",
      "priorities"]),
   ("culture_environment", ["culture", "environment", "atmosphere", "team",
      "collaboration", "morale", "workplace", "office", "culture", "values",
      "belonging"]),
   ("compensation_benefits", ["compensation", "salary", "pay", "benefits",
      "money", "raise", "bonus", "financial", "wage", "income",
      "cost_of_living"]),
   ("remote_flexibility", ["remote", "hybrid", "home", "office", "flexible",
      "flexibility", "location", "commute", "work_from_home", "telework"])]

/-- Score of one theme dictionary against a word list:
`matches + (any matched ? 1 : 0)`. -/
def themeScore (words : List String) (keywords : List String) : Nat :=
  (keywords.filter (fun k => words.contains k)).length +
    (if keywords.any (fun k => words.contains k) then 1 else 0)

def fallbackStop : List String :=
  ["would", "could", "should", "more", "better", "need", "want", "really",
   "think", "feel"]

/-- `TextAggregator.enhancedExtractTheme`. -/
def enhancedExtractTheme (text : String) : String :=
  let words := jsSplitWs (jsLower text)
  let best := themeKeywords.foldl
    (fun best p =>
      let score := themeScore words p.2
      if score > best.2 then (p.1, score) else best)
    ("other", 0)
  if best.1 = "other" ∧ best.2 = 0 then
    let meaningfulWords := words.filter (fun w =>
      jsLength w > 4 && !(fallbackStop.contains w))
    if meaningfulWords.length > 0 then joinSep "_" (meaningfulWords.take 2)
    else best.1
  else best.1

/-- `TextAggregator.calculateJaccardSimilarity`. -/
def calculateJaccardSimilarity (text1 text2 : String) : Frac :=
  let tokens1 := jsDedup (jsSplitWs text1)
  let tokens2 := jsDedup (jsSplitWs text2)
  if tokens1.length = 0 ∨ tokens2.length = 0 then Frac.ofNat 0
  else
    let intersection := tokens1.filter (fun x => tokens2.contains x)
    let union := jsDedup (tokens1 ++ tokens2)
    Frac.div (Frac.ofNat intersection.length) (Frac.ofNat union.length)

/-- `TextAggregator.calculateSemanticSimilarity` (note the emptiness guard is
on the raw token arrays, the sizes on the deduplicated sets). -/
def calculateSemanticSimilarity (tokens1 tokens2 : List String) : Frac :=
  if tokens1.length = 0 ∨ tokens2.length = 0 then Frac.ofNat 0
  else
    let set1 := jsDedup tokens1
    let set2 := jsDedup tokens2
    let intersection := (set1.filter (fun x => set2.contains x)).length
    let union := (jsDedup (set1 ++ set2)).length
    Frac.div (Frac.ofNat intersection) (Frac.ofNat union)

/-- The label-level tail of `calculateThemeSimilarity`. -/
def themeLabelSimilarity (theme1 theme2 : String) : Frac :=
  if theme1 = theme2 then Frac.ofNat 1
  else
    let words1 := jsSplitChar '_' theme1
    let words2 := jsSplitChar '_' theme2
    let overlap := (words1.filter (fun w => words2.contains w)).length
    let maxLength := max words1.length words2.length
    if maxLength > 0 then Frac.div (Frac.ofNat overlap) (Frac.ofNat maxLength)
    else Frac.ofNat 0

/-- `TextAggregator.calculateThemeSimilarity`. -/
def calculateThemeSimilarity (text1 text2 : String) : Frac :=
  themeLabelSimilarity (enhancedExtractTheme text1) (enhancedExtractTheme text2)

/-- `TextAggregator.enhancedCleanTextResponse`. -/
def enhancedCleanTextResponse (text : String) : String :=
  let cleaned := jsTrim text
  let cleaned := jsRemoveFiller 'u' 'h' cleaned
  let cleaned := jsRemoveFiller 'u' 'm' cleaned
  let cleaned := jsRemoveFiller 'e' 'r' cleaned
  let cleaned := jsStripWsRuns cleaned
  let cleaned := jsTrim cleaned
  if jsLength cleaned > 500 then
    let truncated := cleaned.data.take 500
    let lastSentenceEnd := max (max (jsLastIndexOf truncated '.')
      (jsLastIndexOf truncated '!')) (jsLastIndexOf truncated '?')
    if lastSentenceEnd > 400 then ⟨truncated.take (lastSentenceEnd + 1).toNat⟩
    else ⟨truncated⟩
  else cleaned

/-- The JS values survey records can hold.  Numbers appear only as opaque
scalars in this pipeline and are modelled as integers.  Equality is the
structural equality `===` has on the scalar constructors; the engine never
compares object values. -/
inductive JSVal
  | null
  | undefined
  | bool (b : Bool)
  | num (n : Int)
  | str (s : String)
  | obj (fields : List (String × JSVal))

mutual

def JSVal.decEq : (a b : JSVal) → Decidable (a = b)
  | .null, .null => isTrue rfl
  | .null, .undefined | .null, .bool _ | .null, .num _ | .null, .str _ | .null, .obj _ =>
    isFalse nofun
  | .undefined, .undefined => isTrue rfl
  | .undefined, .null | .undefined, .bool _ | .undefined, .num _ | .undefined, .str _ | .undefined, .obj _ =>
    isFalse nofun
  | .bool _, .null | .bool _, .undefined | .bool _, .num _ | .bool _, .str _ | .bool _, .obj _ =>
    isFalse nofun
  | .bool a, .bool b =>
    match Bool.decEq a b with
    | isTrue h => isTrue (by rw [h])
    | isFalse h => isFalse (by intro hh; injection hh with ha; exact h ha)
  | .num _, .null | .num _, .undefined | .num _, .bool _ | .num _, .str _ | .num _, .obj _ =>
    isFalse nofun
  | .num a, .num b =>
    match Int.instDecidableEq a b with
    | isTrue h => isTrue (by rw [h])
    | isFalse h => isFalse (by intro hh; injection hh with ha; exact h ha)
  | .str _, .null | .str _, .undefined | .str _, .bool _ | .str _, .num _ | .str _, .obj _ =>
    isFalse nofun
  | .str a, .str b =>
    match String.decEq a b with
    | isTrue h => isTrue (by rw [h])
    | isFalse h => isFalse (by intro hh; injection hh with ha; exact h ha)
  | .obj _, .null | .obj _, .undefined | .obj _, .bool _ | .obj _, .num _ | .obj _, .str _ =>
    isFalse nofun
  | .obj fs, .obj gs =>
    match JSVal.decEqFields fs gs with
    | isTrue h => isTrue (by rw [h])
    | isFalse h => isFalse (by intro hh; injection hh with ha; exact h ha)

def JSVal.decEqFields : (fs gs : List (String × JSVal)) → Decidable (fs = gs)
  | [], [] => isTrue rfl
  | [], _ :: _ => isFalse nofun
  | _ :: _, [] => isFalse nofun
  | (k, v) :: fs, (k2, v2) :: gs =>
    match String.decEq k k2 with
    | isFalse h1 =>
      isFalse (by intro hh; injection hh with hh1 hh2; injection hh1 with ha hb; exact h1 ha)
    | isTrue h1 =>
      match JSVal.decEq v v2 with
      | isFalse h2 =>
        isFalse (by intro hh; injection hh with hh1 hh2; injection hh1 with ha hb; exact h2 hb)
      | isTrue h2 =>
        match JSVal.decEqFields fs gs with
        | isFalse h3 => isFalse (by intro hh; injection hh with hh1 hh2; exact h3 hh2)
        | isTrue h3 => isTrue (by rw [h1, h2, h3])

end

instance : DecidableEq JSVal := JSVal.decEq

/-- JS truthiness (no `NaN` in the integer model). -/
def jsTruthy : JSVal → Bool
  | .null => false
  | .undefined => false
  | .bool b => b
  | .num n => decide (n ≠ 0)
  | .str s => decide (s ≠ "")
  | .obj _ => true

/-- One extracted free-text answer, as pushed onto
`categoryData.rawResponses`. -/
structure RawResponse where
  text : String
  normalizedText : String
  leader : Option String
  department : JSVal
  fullOriginal : String
  semanticTokens : List String
deriving DecidableEq

/-- A cluster while the single pass still carries the leader/department
`Set`s. -/
structure WorkCluster where
  theme : String
  count : Nat
  examples : List String
  leaders : List (Option String)
  departments : List JSVal
  semanticSignature : List String
  avgLength : Frac
deriving DecidableEq

/-- A cluster after the `Set`s have been collapsed to counts (the shape the
engine emits). -/
structure Cluster where
  theme : String
  count : Nat
  examples : List String
  semanticSignature : List String
  avgLength : Frac
  leaderCount : Nat
  departmentCount : Nat
deriving DecidableEq, Repr

/-- The fresh cluster a seed response opens
(`new Set([response.leader])` may genuinely contain `null`). -/
def seedCluster (response : RawResponse) : WorkCluster :=
  { theme := enhancedExtractTheme response.text
    count := 1
    examples := [response.fullOriginal]
    leaders := [response.leader]
    departments := [response.department]
    semanticSignature := response.semanticTokens
    avgLength := Frac.ofNat (jsLength response.text) }

/-- `jaccard·0.3 + semantic·0.4 + theme·0.3` (the float literals stand for
their exact decimal values). -/
def combinedSimilarity (response other : RawResponse) : Frac :=
  Frac.add
    (Frac.add
      (Frac.mul (calculateJaccardSimilarity response.normalizedText other.normalizedText) ⟨3, 10⟩)
      (Frac.mul (calculateSemanticSimilarity response.semanticTokens other.semanticTokens) ⟨4, 10⟩))
    (Frac.mul (calculateThemeSimilarity response.text other.text) ⟨3, 10⟩)

/-- `combinedSimilarity > 0.45`. -/
def similarCond (response other : RawResponse) : Bool :=
  Frac.blt ⟨45, 100⟩ (combinedSimilarity response other)

/-- The body of the absorption branch of the inner loop. -/
def absorbOne (cluster : WorkCluster) (other : RawResponse) : WorkCluster :=
  { theme := cluster.theme
    count := cluster.count + 1
    examples :=
      if cluster.examples.length < 8 then cluster.examples ++ [other.fullOriginal]
      else cluster.examples
    leaders :=
      match other.leader with
      | some l => if l ≠ "" then jsInsert cluster.leaders (some l) else cluster.leaders
      | none => cluster.leaders
    departments :=
      if jsTruthy other.department then jsInsert cluster.departments other.department
      else cluster.departments
    semanticSignature := jsDedup (cluster.semanticSignature ++ other.semanticTokens)
    avgLength := Frac.div (Frac.add cluster.avgLength (Frac.ofNat (jsLength other.text))) ⟨2, 1⟩ }

/-- The inner loop of `enhancedClusterResponsesWithFullExamples`: scan the
later, still unprocessed responses in order, absorbing the similar ones into
the seed's cluster and leaving the rest for later seeds. -/
def absorbPass (response : RawResponse) (cluster : WorkCluster) :
    List RawResponse → WorkCluster × List RawResponse
  | [] => (cluster, [])
  | other :: rest =>
    if similarCond response other then absorbPass response (absorbOne cluster other) rest
    else
      let p := absorbPass response cluster rest
      (p.1, other :: p.2)

/-- Convert the leader/department `Set`s to counts and drop them. -/
def finalizeCluster (c : WorkCluster) : Cluster :=
  { theme := c.theme
    count := c.count
    examples := c.examples
    semanticSignature := c.semanticSignature
    avgLength := c.avgLength
    leaderCount := c.leaders.length
    departmentCount := c.departments.length }

/-- The outer loop: each still unprocessed response (in sorted order) seeds a
cluster, then absorbs from the tail.  The `processed` index set of the source
is represented by removal from the remaining list, which preserves order. -/
def clusterLoopF : Nat → List RawResponse → List Cluster
  | _, [] => []
  | 0, _ :: _ => []
  | fuel + 1, seed :: rest =>
    finalizeCluster (absorbPass seed (seedCluster seed) rest).1 ::
      clusterLoopF fuel (absorbPass seed (seedCluster seed) rest).2

def clusterLoop (l : List RawResponse) : List Cluster := clusterLoopF l.length l

/-- `themeJaccard > 0.6` over the underscore-split theme-label word sets —
the merge test of `postProcessClustersWithExamples`, always against the
original first cluster of the pair. -/
def themeMergeCond (cluster other : Cluster) : Bool :=
  let themeWords1 := jsDedup (jsSplitChar '_' cluster.theme)
  let themeWords2 := jsDedup (jsSplitChar '_' other.theme)
  let themeOverlap := (themeWords1.filter (fun x => themeWords2.contains x)).length
  let themeUnion := (jsDedup (themeWords1 ++ themeWords2)).length
  Frac.blt ⟨6, 10⟩ (Frac.div (Frac.ofNat themeOverlap) (Frac.ofNat themeUnion))

/-- The body of the merge branch: `cluster` is the original first cluster of
the pair (used for the theme-adoption comparison), `cur` the accumulated
merged cluster. -/
def mergeInto (cluster cur other : Cluster) : Cluster :=
  { theme := if other.count > cluster.count then other.theme else cur.theme
    count := cur.count + other.count
    examples := (jsDedup (cur.examples ++ other.examples)).take 8
    semanticSignature := cur.semanticSignature
    avgLength := cur.avgLength
    leaderCount := cur.leaderCount + other.leaderCount
    departmentCount := cur.departmentCount + other.departmentCount }

/-- Inner loop of the post-merge pass. -/
def mergePass (cluster cur : Cluster) : List Cluster → Cluster × List Cluster
  | [] => (cur, [])
  | other :: rest =>
    if themeMergeCond cluster other then mergePass cluster (mergeInto cluster cur other) rest
    else
      let p := mergePass cluster cur rest
      (p.1, other :: p.2)

/-- Outer loop of the post-merge pass (`currentCluster = {...cluster}` is a
value copy in this model). -/
def mergeLoopF : Nat → List Cluster → List Cluster
  | _, [] => []
  | 0, _ :: _ => []
  | fuel + 1, c :: rest =>
    (mergePass c c rest).1 :: mergeLoopF fuel (mergePass c c rest).2

def mergeLoop (l : List Cluster) : List Cluster := mergeLoopF l.length l

/-- `TextAggregator.postProcessClustersWithExamples`. -/
def postProcessClustersWithExamples (clusters : List Cluster) : List Cluster :=
  if clusters.length < 2 then clusters else mergeLoop clusters

/-- Sort order of `responses.sort((a, b) => b.text.length - a.text.length)`;
`List.insertionSort` with this relation is a stable descending sort, matching
the (stable) JS array sort. -/
def byTextLenDesc (a b : RawResponse) : Prop := jsLength b.text ≤ jsLength a.text

instance : DecidableRel byTextLenDesc := fun _ _ => Nat.decLe _ _

instance : IsTotal RawResponse byTextLenDesc :=
  ⟨fun x y => Nat.le_total (jsLength y.text) (jsLength x.text)⟩

instance : IsTrans RawResponse byTextLenDesc :=
  ⟨fun _ _ _ h1 h2 => Nat.le_trans h2 h1⟩

/-- Sort order of `mergedClusters.sort((a, b) => b.count - a.count)`. -/
def byCountDesc (a b : Cluster) : Prop := b.count ≤ a.count

instance : DecidableRel byCountDesc := fun _ _ => Nat.decLe _ _

instance : IsTotal Cluster byCountDesc := ⟨fun x y => Nat.le_total y.count x.count⟩

instance : IsTrans Cluster byCountDesc := ⟨fun _ _ _ h1 h2 => Nat.le_trans h2 h1⟩

/-- The cluster list of a category after the single clustering pass and the
post-merge pass, before the final sort and top-40 truncation. -/
def preTruncationClusters (responses : List RawResponse) : List Cluster :=
  postProcessClustersWithExamples (clusterLoop (List.insertionSort byTextLenDesc responses))

/-- `TextAggregator.enhancedClusterResponsesWithFullExamples`. -/
def enhancedClusterResponsesWithFullExamples (responses : List RawResponse) : List Cluster :=
  if responses.length = 0 then []
  else (List.insertionSort byCountDesc (preTruncationClusters responses)).take 40

/-- Total of `cluster.count` over a cluster list. -/
def sumCounts (l : List Cluster) : Nat := (l.map Cluster.count).sum

/-- One question mapping: category name, header regex literal sequences, and
the column index/reference carried along for prompts (unused by the logic). -/
structure QuestionMapping where
  category : String
  patterns : List (List String)
  columnIndex : Nat
  columnRef : String

/-- The six fixed question mappings, with every regex written as its literal
segments (they all have the shape `lit₁.*lit₂.*…` with the `i` flag). -/
def questionMappings : List QuestionMapping :=
  [⟨"fulfilling_work",
    [["make", "work", "fulfilling"], ["work", "experience", "fulfilling"],
     ["fulfilling", "work"], ["enjoy", "work"], ["satisfying", "work"]], 7, "H"⟩,
   ⟨"role_clarity",
    [["clarify", "role", "goals"], ["information", "support", "clarify"],
     ["understand", "role"], ["goals", "clear"], ["expectations"]], 9, "J"⟩,
   ⟨"obstacles",
    [["obstacles", "preventing"], ["preventing", "highest"], ["barriers"],
     ["challenges"], ["problems"]], 12, "M"⟩,
   ⟨"empowerment_changes",
    [["empowered", "role"], ["changes", "empowered"], ["feel", "empowered"],
     ["autonomy"], ["decision", "making"]], 14, "O"⟩,
   ⟨"bold_ideas",
    [["bold", "ideas"], ["ideas", "propel"], ["propel", "forward"],
     ["innovation"], ["suggestions"]], 16, "Q"⟩,
   ⟨"leadership_support",
    [["support", "leadership"], ["leadership", "provide"],
     ["leadership", "support"], ["management", "support"],
     ["help", "succeed"]], 19, "T"⟩]

/-- `Object.keys` for the values that reach it (never `null`/`undefined`
here): own enumerable keys of an object, index keys of a string, nothing for
other primitives. -/
def jsKeys : JSVal → List String
  | .obj fields => fields.map Prod.fst
  | .str s => (List.range s.data.length).map toString
  | _ => []

/-- Non-throwing property read `value[key]` (the record is known non-null by
the time this is used). -/
def jsGetField : JSVal → String → JSVal
  | .obj fields, key =>
    match fields.lookup key with
    | some v => v
    | none => .undefined
  | .str s, key =>
    match (List.range s.data.length).find? (fun i => toString i == key) with
    | some i => .str ⟨[s.data.getD i ' ']⟩
    | none => .undefined
  | _, _ => .undefined

/-- `TextAggregator.extractLeaderName`; calling `.split` on a truthy
non-string throws. -/
def extractLeaderName (rawLeaderName : JSVal) : Except String (Option String) :=
  if jsTruthy rawLeaderName = false ∨ rawLeaderName = .str "null" ∨
      rawLeaderName = .str "undefined" then
    .ok none
  else
    match rawLeaderName with
    | .str s =>
      let name := jsTrim ((jsSplitChar '(' s).headD "")
      let parts := (jsSplitChar ' ' name).filter (fun p => jsLength p > 0)
      match parts with
      | p0 :: p1 :: _ => .ok (some (p0 ++ " " ++ p1))
      | [p0] => .ok (some p0)
      | [] => .ok none
    | _ => .error "TypeError: rawLeaderName.split is not a function"

/-- `TextAggregator.isValidTextResponse` (the `typeof value !== 'string'`
branch returns false). -/
def isValidTextResponse : JSVal → Bool
  | .str s => isValidTextString s
  | _ => false

/-- `TextAggregator.extractTextFromResponse`: values of pattern-matching keys
that are truthy strings, in key order. -/
def extractTextFromResponse (response : JSVal) (mapping : QuestionMapping) : List String :=
  ((jsKeys response).filter (fun key =>
      mapping.patterns.any (fun segs => patternTest segs key))).filterMap (fun key =>
    match jsGetField response key with
    | .str s => if s ≠ "" then some s else none
    | _ => none)

structure CategoryStats where
  originalCount : Nat
  validCount : Nat
  clusteredCount : Nat
deriving DecidableEq, Repr

/-- One per-category aggregate; `rawResponses = none` models the
`delete categoryData.rawResponses` clean-up. -/
structure CategoryData where
  clusters : List Cluster
  totalResponses : Nat
  rawResponses : Option (List RawResponse)
  columnRef : String
  processingStats : CategoryStats
deriving DecidableEq

structure LeaderData where
  responseCount : Nat
  themes : List (String × Nat)
  department : JSVal
deriving DecidableEq

/-- `Math.round` (half away from zero towards +∞, as floor of `x + 1/2`),
for fractions with positive denominator. -/
def jsRound (x : Frac) : Int := Int.fdiv (2 * x.num + x.den) (2 * x.den)

/-- Per-category clustering statistics; the source names the last field
`compressionRatio`. -/
structure ClusteringStats where
  avgClusterSize : Frac
  largeClusterCount : Nat
  compressionPercent : Int
deriving DecidableEq, Repr

/-- `aggregated.metadata` without the wall-clock `processingTime` stamp
(out of scope: real time). -/
structure AggMetadata where
  uniqueLeaderCount : Nat
  uniqueDepartmentCount : Nat
  clusteringStats : List (String × ClusteringStats)
deriving DecidableEq

structure Aggregate where
  byCategory : List (String × CategoryData)
  byLeader : List (String × LeaderData)
  totalResponses : Nat
  metadata : AggMetadata
deriving DecidableEq

/-- The mutable state threaded through the per-response loop. -/
structure AggState where
  byCategory : List (String × CategoryData)
  byLeader : List (String × LeaderData)
  uniqueLeaders : List String
  uniqueDepartments : List JSVal
deriving DecidableEq

/-- Update the value at a key of an association list in place. -/
def updateAssoc {β : Type} (l : List (String × β)) (k : String) (f : β → β) :
    List (String × β) :=
  l.map (fun p => if p.1 = k then (p.1, f p.2) else p)

/-- `themes[theme] = (themes[theme] || 0) + 1` on an insertion-ordered
object. -/
def bumpTheme (themes : List (String × Nat)) (theme : String) : List (String × Nat) :=
  if (themes.lookup theme).isSome then updateAssoc themes theme (fun n => n + 1)
  else themes ++ [(theme, 1)]

/-- Processing of one extracted text for one category (the body of the
`textResponses.forEach`). -/
def processText (st : AggState) (leaderName : Option String) (department : JSVal)
    (category : String) (textResponse : String) : AggState :=
  let st := { st with
    byCategory := updateAssoc st.byCategory category (fun cd =>
      { cd with processingStats :=
          { cd.processingStats with originalCount := cd.processingStats.originalCount + 1 } }) }
  if isValidTextString textResponse then
    let cleanText := enhancedCleanTextResponse textResponse
    let raw : RawResponse :=
      { text := cleanText
        normalizedText := normalizeForClustering cleanText
        leader := leaderName
        department := department
        fullOriginal := textResponse
        semanticTokens := extractSemanticTokens cleanText }
    let st := { st with
      byCategory := updateAssoc st.byCategory category (fun cd =>
        { cd with
          processingStats :=
            { cd.processingStats with validCount := cd.processingStats.validCount + 1 }
          rawResponses := cd.rawResponses.map (fun l => l ++ [raw])
          totalResponses := cd.totalResponses + 1 }) }
    match leaderName with
    | some l =>
      if l ≠ "" then
        { st with byLeader := updateAssoc st.byLeader l (fun ld =>
            { ld with
              responseCount := ld.responseCount + 1
              themes := bumpTheme ld.themes (enhancedExtractTheme cleanText) }) }
      else st
    | none => st
  else st

/-- Processing of one record (`cleanedData.forEach` body).  Reading
`response._steamLeader` throws on `null`/`undefined` records. -/
def processRecord (st : AggState) (response : JSVal) : Except String AggState :=
  match response with
  | .null => .error "TypeError: Cannot read properties of null"
  | .undefined => .error "TypeError: Cannot read properties of undefined"
  | _ => do
    let leaderName ← extractLeaderName (jsGetField response "_steamLeader")
    let department :=
      if jsTruthy (jsGetField response "_department") then jsGetField response "_department"
      else .str "Unknown"
    let leaderTruthy : Bool :=
      match leaderName with
      | some l => decide (l ≠ "")
      | none => false
    let st := { st with
      uniqueLeaders :=
        if leaderTruthy then jsInsert st.uniqueLeaders (leaderName.getD "")
        else st.uniqueLeaders
      uniqueDepartments :=
        if jsTruthy department then jsInsert st.uniqueDepartments department
        else st.uniqueDepartments }
    let st :=
      match leaderName with
      | some l =>
        if l ≠ "" ∧ (st.byLeader.lookup l).isNone then
          { st with byLeader := st.byLeader ++ [(l, ⟨0, [], department⟩)] }
        else st
      | none => st
    .ok (questionMappings.foldl (fun st mapping =>
      (extractTextFromResponse response mapping).foldl (fun st textResponse =>
        processText st leaderName department mapping.category textResponse) st) st)

/-- The per-category clustering phase (`Object.keys(byCategory).forEach`):
cluster when raw responses exist, record the statistics, and delete the raw
list. -/
def finalizeCategory (cd : CategoryData) : CategoryData × Option ClusteringStats :=
  match cd.rawResponses with
  | some raws =>
    if raws.length > 0 then
      let clusters := enhancedClusterResponsesWithFullExamples raws
      let avgClusterSize := Frac.div (Frac.ofNat cd.totalResponses) (Frac.ofNat clusters.length)
      let stats : ClusteringStats :=
        { avgClusterSize := ⟨jsRound (Frac.mul avgClusterSize ⟨10, 1⟩), 10⟩
          largeClusterCount := (clusters.filter (fun c => c.count ≥ 20)).length
          compressionPercent := jsRound (Frac.mul
            (Frac.sub ⟨1, 1⟩
              (Frac.div (Frac.ofNat clusters.length) (Frac.ofNat cd.totalResponses)))
            ⟨100, 1⟩) }
      ({ cd with
          clusters := clusters
          processingStats := { cd.processingStats with clusteredCount := clusters.length }
          rawResponses := none },
        some stats)
    else (cd, none)
  | none => (cd, none)

/-- The initial `aggregated.byCategory` structure. -/
def initState : AggState :=
  { byCategory := questionMappings.map (fun m =>
      (m.category,
        { clusters := []
          totalResponses := 0
          rawResponses := some []
          columnRef := m.columnRef
          processingStats := { originalCount := 0, validCount := 0, clusteredCount := 0 } }))
    byLeader := []
    uniqueLeaders := []
    uniqueDepartments := [] }

/-- `TextAggregator.aggregateResponses`. -/
def aggregateResponses (cleanedData : List JSVal) : Except String Aggregate := do
  let st ← cleanedData.foldlM processRecord initState
  let finals := st.byCategory.map (fun p => (p.1, finalizeCategory p.2))
  .ok
    { byCategory := finals.map (fun p => (p.1, (p.2).1))
      byLeader := st.byLeader
      totalResponses := cleanedData.length
      metadata :=
        { uniqueLeaderCount := st.uniqueLeaders.length
          uniqueDepartmentCount := st.uniqueDepartments.length
          clusteringStats := finals.filterMap (fun p => (p.2).2.map (fun s => (p.1, s))) } }

deriving instance DecidableEq for Except

/-! ## Specification-side definitions

These re-state, in the spec's own words, the quantities the claims talk
about; the theorems below compare them with the code-derived definitions. -/

/-- The spec's fixed denylist entries (the two pattern families, all-dashes
and all-dots, are stated separately). -/
def specDenylist : List String :=
  ["n/a", "none", "no", "nothing", "nil", "na", "not applicable", "no comment",
   "nope", "nada"]

/-- "after trimming, it case-insensitively equals any entry of the fixed
denylist (…, all-dashes, all-dots, …)", for an already trimmed `t`. -/
def specDenylisted (t : String) : Prop :=
  jsLower t ∈ specDenylist ∨
  (t.data ≠ [] ∧ ∀ c ∈ t.data, c = '-') ∨
  (t.data ≠ [] ∧ ∀ c ∈ t.data, c = '.')

/-- The claim's validity predicate: not denylisted after trimming, and
trimmed length strictly greater than 8. -/
def specValidString (value : String) : Prop :=
  ¬ specDenylisted (jsTrim value) ∧ jsLength (jsTrim value) > 8

/-- First element attaining the maximum of `f` (ties favour the earlier
element) — the spec's "highest-scoring theme, first encountered wins". -/
def firstMaxBy {α : Type} (f : α → Nat) : List α → Option α
  | [] => none
  | x :: xs =>
    some ((firstMaxBy f xs).elim x (fun y => if f y > f x then y else x))

/-- The spec's fallback: first two words longer than 4 characters outside the
stoplist, joined with an underscore; `"other"` when none exist. -/
def specFallbackTheme (words : List String) : String :=
  let meaningfulWords := words.filter (fun w =>
    jsLength w > 4 && !(fallbackStop.contains w))
  if meaningfulWords.length > 0 then joinSep "_" (meaningfulWords.take 2) else "other"

/-- The theme label as the spec words it: the highest-scoring dictionary
(first one wins ties) when any scores above zero, else the fallback. -/
def specExtractTheme (text : String) : String :=
  let words := jsSplitWs (jsLower text)
  (firstMaxBy (fun p => themeScore words p.2) themeKeywords).elim
    (specFallbackTheme words)
    (fun p => if themeScore words p.2 > 0 then p.1 else specFallbackTheme words)

/-- Intersection-over-union of two finite string sets, in `ℚ`. -/
def specIoU (A B : Finset String) : ℚ := ((A ∩ B).card : ℚ) / ((A ∪ B).card : ℚ)

/-- The claim's jaccard: intersection-over-union of the whitespace-tokenized
words of the two `normalizedText` values. -/
def specJaccard (text1 text2 : String) : ℚ :=
  specIoU (jsSplitWs text1).toFinset (jsSplitWs text2).toFinset

/-- The claim's semantic similarity: intersection-over-union of the two
`semanticTokens` sets. -/
def specSemantic (tokens1 tokens2 : List String) : ℚ :=
  specIoU tokens1.toFinset tokens2.toFinset

/-- The claim's theme similarity, on the two theme labels: `1` when they are
identical, else shared underscore-separated words over the larger label's
word count (word multiplicity read off the first label, as the code does). -/
def specThemeSim (theme1 theme2 : String) : ℚ :=
  if theme1 = theme2 then 1
  else
    (((jsSplitChar '_' theme1).filter (fun w => (jsSplitChar '_' theme2).contains w)).length : ℚ) /
      (max (jsSplitChar '_' theme1).length (jsSplitChar '_' theme2).length : ℚ)

/-- The claim's combined score `0.3·jaccard + 0.4·semantic + 0.3·theme`. -/
def specCombinedScore (response other : RawResponse) : ℚ :=
  (3 / 10) * specJaccard response.normalizedText other.normalizedText +
  (4 / 10) * specSemantic response.semanticTokens other.semanticTokens +
  (3 / 10) * specThemeSim (enhancedExtractTheme response.text) (enhancedExtractTheme other.text)

/-- The claim's post-merge test: Jaccard overlap of the two theme labels'
underscore-split word sets. -/
def specThemeWordsIoU (theme1 theme2 : String) : ℚ :=
  specIoU (jsSplitChar '_' theme1).toFinset (jsSplitChar '_' theme2).toFinset

/-! ## Concrete values used by witnesses and counterexamples -/

/-- The spec's 9-character example `"It\x27s okay"` (apostrophe written via its
code point). -/
def itsOkayString : String :=
  String.mk ['I', 't', Char.ofNat 39, 's', ' ', 'o', 'k', 'a', 'y']

/-- Two copies of this response land in one cluster and duplicate its
`fullOriginal` inside `examples`. -/
def duplicateRawResponse : RawResponse :=
  { text := "aa"
    normalizedText := "aa"
    leader := none
    department := .str "d"
    fullOriginal := "zz"
    semanticTokens := [] }

/-- The cluster the engine emits for a single `duplicateRawResponse`. -/
def exampleCluster : Cluster :=
  { theme := "other"
    count := 1
    examples := ["zz"]
    semanticSignature := []
    avgLength := ⟨2, 1⟩
    leaderCount := 1
    departmentCount := 1 }

/-- A record carrying one valid answer in the `obstacles` category. -/
def obstaclesRecord : JSVal := .obj [("barriers", .str "abcdefghi")]

/-- The fifth theme dictionary, the one holding the keyword "empowered". -/
def autonomyPair : String × List String :=
  ("autonomy_empowerment", ["autonomy", "freedom", "decision", "empowered",
   "control", "choice", "independence", "empower", "decisions", "authority",
   "ownership"])

/-! ## Supporting lemmas -/

theorem Frac.blt_iff_toRat_lt (a b : Frac) (ha : 0 < a.den) (hb : 0 < b.den) :
    a.blt b = true ↔ a.toRat < b.toRat := by
  have ha' : (0 : ℚ) < (a.den : ℚ) := by exact_mod_cast ha
  have hb' : (0 : ℚ) < (b.den : ℚ) := by exact_mod_cast hb
  rw [Frac.blt, Frac.toRat, Frac.toRat, div_lt_div_iff₀ ha' hb', decide_eq_true_iff]
  constructor
  · intro h
    exact_mod_cast h
  · intro h
    exact_mod_cast h

theorem lookup_mem {α β : Type} [BEq α] [LawfulBEq α] (l : List (α × β)) (a : α) (b : β)
    (h : l.lookup a = some b) : (a, b) ∈ l := by
  induction l with
  | nil => simp [List.lookup] at h
  | cons p l ih =>
    rw [List.lookup] at h
    by_cases hc : a == p.1
    · rw [hc] at h
      simp only [Option.some.injEq] at h
      have h1 : a = p.1 := eq_of_beq hc
      exact List.mem_cons.mpr (Or.inl (by rw [h1, ← h]))
    · rw [Bool.of_not_eq_true hc] at h
      right
      exact ih h

/-- Any character property that holds of no upper- or lower-case ASCII letter
is invariant under `jsLowerChar`. -/
theorem jsLowerChar_pred_invariant (P : Char → Bool)
    (hp : ∀ p ∈ asciiLowerPairs, P p.1 = false ∧ P p.2 = false) (c : Char) :
    P (jsLowerChar c) = P c := by
  rw [jsLowerChar]
  cases h : asciiLowerPairs.lookup c with
  | none => rfl
  | some d =>
    have hm := lookup_mem _ _ _ h
    have h1 := hp _ hm
    rw [h1.2, h1.1]

theorem wsChar_jsLowerChar (c : Char) : wsChar (jsLowerChar c) = wsChar c :=
  jsLowerChar_pred_invariant wsChar (by decide) c

/-- Lowercasing commutes with trimming, so "trim then compare
case-insensitively" agrees with the code's "lowercase then trim". -/
theorem jsTrim_jsLower (s : String) : jsTrim (jsLower s) = jsLower (jsTrim s) := by
  have hdw : ∀ l : List Char, (l.map jsLowerChar).dropWhile wsChar =
      (l.dropWhile wsChar).map jsLowerChar := by
    intro l
    rw [List.dropWhile_map]
    have : (wsChar ∘ jsLowerChar) = wsChar := by
      funext c
      exact wsChar_jsLowerChar c
    rw [this]
  show String.mk (trimList ((jsLower s).data)) = String.mk ((jsTrim s).data.map jsLowerChar)
  have : (jsLower s).data = s.data.map jsLowerChar := rfl
  rw [this]
  show String.mk (trimList (s.data.map jsLowerChar)) = String.mk ((trimList s.data).map jsLowerChar)
  rw [trimList, trimList, hdw, ← List.map_reverse, hdw, ← List.map_reverse]

theorem absorbPass_snd_length_le (response : RawResponse) (cluster : WorkCluster)
    (l : List RawResponse) : (absorbPass response cluster l).2.length ≤ l.length := by
  induction l generalizing cluster with
  | nil => simp [absorbPass]
  | cons other rest ih =>
    rw [absorbPass]
    by_cases h : similarCond response other
    · rw [if_pos h]
      exact Nat.le_succ_of_le (ih _)
    · rw [if_neg h]
      simpa using ih cluster

theorem mergePass_snd_length_le (cluster cur : Cluster) (l : List Cluster) :
    (mergePass cluster cur l).2.length ≤ l.length := by
  induction l generalizing cur with
  | nil => simp [mergePass]
  | cons other rest ih =>
    rw [mergePass]
    by_cases h : themeMergeCond cluster other
    · rw [if_pos h]
      exact Nat.le_succ_of_le (ih _)
    · rw [if_neg h]
      simpa using ih cur

theorem mem_jsDedupGo {α : Type} [DecidableEq α] (l : List α) (seen : List α) (x : α) :
    x ∈ jsDedupGo l seen ↔ x ∈ l ∧ x ∉ seen := by
  induction l generalizing seen with
  | nil => simp [jsDedupGo]
  | cons y ys ih =>
    rw [jsDedupGo]
    by_cases h : y ∈ seen
    · rw [if_pos h, ih]
      simp only [List.mem_cons]
      constructor
      · rintro ⟨h1, h2⟩
        exact ⟨Or.inr h1, h2⟩
      · rintro ⟨h1 | h1, h2⟩
        · rw [h1] at h2
          exact absurd h h2
        · exact ⟨h1, h2⟩
    · rw [if_neg h]
      simp only [List.mem_cons, ih, List.mem_cons]
      constructor
      · rintro (h1 | ⟨h1, h2⟩)
        · exact ⟨Or.inl h1, by rw [h1]; exact h⟩
        · exact ⟨Or.inr h1, fun hc => h2 (Or.inr hc)⟩
      · rintro ⟨h1 | h1, h2⟩
        · exact Or.inl h1
        · by_cases hxy : x = y
          · exact Or.inl hxy
          · exact Or.inr ⟨h1, fun hc => h2 ((or_iff_right hxy).mp hc)⟩

theorem nodup_jsDedupGo {α : Type} [DecidableEq α] (l : List α) (seen : List α) :
    (jsDedupGo l seen).Nodup := by
  induction l generalizing seen with
  | nil => simp [jsDedupGo]
  | cons y ys ih =>
    rw [jsDedupGo]
    by_cases h : y ∈ seen
    · rw [if_pos h]
      exact ih _
    · rw [if_neg h]
      refine List.Nodup.cons ?_ (ih _)
      intro hc
      rw [mem_jsDedupGo] at hc
      exact hc.2 (List.mem_cons_self _ _)

theorem mem_jsDedup {α : Type} [DecidableEq α] (l : List α) (x : α) :
    x ∈ jsDedup l ↔ x ∈ l := by
  rw [jsDedup, mem_jsDedupGo]
  simp

theorem nodup_jsDedup {α : Type} [DecidableEq α] (l : List α) : (jsDedup l).Nodup :=
  nodup_jsDedupGo l []

theorem jsDedup_eq_nil_iff {α : Type} [DecidableEq α] (l : List α) :
    jsDedup l = [] ↔ l = [] := by
  constructor
  · intro h
    cases l with
    | nil => rfl
    | cons x xs =>
      have : x ∈ jsDedup (x :: xs) := (mem_jsDedup _ _).mpr (List.mem_cons_self _ _)
      rw [h] at this
      exact absurd this (List.not_mem_nil x)
  · intro h
    rw [h]
    rfl

/-- A duplicate-free list whose members are exactly those of a finset has the
finset's cardinality as its length. -/
theorem length_nodup_eq_card {α : Type} [DecidableEq α] (l : List α) (S : Finset α)
    (h : l.Nodup) (hm : ∀ x, x ∈ l ↔ x ∈ S) : l.length = S.card := by
  have h1 : l.toFinset = S := by
    ext x
    rw [List.mem_toFinset]
    exact hm x
  rw [← h1, List.toFinset_card_of_nodup h]

theorem Frac.toRat_ofNat (n : Nat) : (Frac.ofNat n).toRat = n := by
  simp [Frac.ofNat, Frac.toRat]

theorem Frac.toRat_mul (a b : Frac) : (a.mul b).toRat = a.toRat * b.toRat := by
  simp only [Frac.mul, Frac.toRat]
  push_cast
  rw [div_mul_div_comm]

theorem Frac.toRat_div (a b : Frac) : (a.div b).toRat = a.toRat / b.toRat := by
  simp only [Frac.div, Frac.toRat]
  push_cast
  conv_rhs => rw [div_eq_mul_inv, inv_div, div_mul_div_comm]

theorem Frac.toRat_add (a b : Frac) (ha : a.den ≠ 0) (hb : b.den ≠ 0) :
    (a.add b).toRat = a.toRat + b.toRat := by
  have ha' : (a.den : ℚ) ≠ 0 := Int.cast_ne_zero.mpr ha
  have hb' : (b.den : ℚ) ≠ 0 := Int.cast_ne_zero.mpr hb
  simp only [Frac.add, Frac.toRat]
  push_cast
  rw [div_add_div _ _ ha' hb']
  ring

theorem jsSplitWsAux_ne_nil (l : List Char) (cur : List Char) (inSep : Bool) :
    jsSplitWsAux l cur inSep ≠ [] := by
  induction l generalizing cur inSep with
  | nil => simp [jsSplitWsAux]
  | cons c cs ih =>
    rw [jsSplitWsAux]
    by_cases h : wsChar c
    · rw [if_pos h]
      cases inSep with
      | true => exact ih _ _
      | false => simp
    · rw [if_neg h]
      exact ih _ _

theorem jsSplitWs_ne_nil (s : String) : jsSplitWs s ≠ [] := by
  rw [jsSplitWs]
  intro h
  exact jsSplitWsAux_ne_nil s.data [] false (List.map_eq_nil_iff.mp h)

theorem jsSplitCharAux_ne_nil (sep : Char) (l : List Char) (cur : List Char) :
    jsSplitCharAux sep l cur ≠ [] := by
  induction l generalizing cur with
  | nil => simp [jsSplitCharAux]
  | cons c cs ih =>
    rw [jsSplitCharAux]
    by_cases h : c = sep
    · rw [if_pos h]
      simp
    · rw [if_neg h]
      exact ih _

theorem jsSplitChar_ne_nil (sep : Char) (s : String) : jsSplitChar sep s ≠ [] := by
  rw [jsSplitChar]
  intro h
  exact jsSplitCharAux_ne_nil sep s.data [] (List.map_eq_nil_iff.mp h)

theorem filter_inter_card {α : Type} [DecidableEq α] (l1 l2 : List α) :
    ((jsDedup l1).filter (fun x => (jsDedup l2).contains x)).length =
      (l1.toFinset ∩ l2.toFinset).card := by
  apply length_nodup_eq_card
  · exact (nodup_jsDedup l1).filter _
  · intro x
    simp [List.mem_filter, mem_jsDedup]

theorem dedup_union_card {α : Type} [DecidableEq α] (l1 l2 : List α) :
    (jsDedup (jsDedup l1 ++ jsDedup l2)).length = (l1.toFinset ∪ l2.toFinset).card := by
  apply length_nodup_eq_card
  · exact nodup_jsDedup _
  · intro x
    simp [mem_jsDedup]

theorem calculateJaccardSimilarity_spec (t1 t2 : String) :
    (calculateJaccardSimilarity t1 t2).toRat = specJaccard t1 t2 ∧
    0 < (calculateJaccardSimilarity t1 t2).den := by
  have h1 : jsDedup (jsSplitWs t1) ≠ [] := by
    rw [Ne, jsDedup_eq_nil_iff]
    exact jsSplitWs_ne_nil t1
  have h2 : jsDedup (jsSplitWs t2) ≠ [] := by
    rw [Ne, jsDedup_eq_nil_iff]
    exact jsSplitWs_ne_nil t2
  have hg : ¬ ((jsDedup (jsSplitWs t1)).length = 0 ∨ (jsDedup (jsSplitWs t2)).length = 0) := by
    rw [List.length_eq_zero, List.length_eq_zero]
    rintro (h | h)
    · exact h1 h
    · exact h2 h
  have hu : 0 < (jsDedup (jsDedup (jsSplitWs t1) ++ jsDedup (jsSplitWs t2))).length := by
    rw [List.length_pos, Ne, jsDedup_eq_nil_iff, List.append_eq_nil]
    rintro ⟨ha, _⟩
    exact h1 ha
  rw [calculateJaccardSimilarity]
  simp only [if_neg hg]
  constructor
  · rw [Frac.toRat_div, Frac.toRat_ofNat, Frac.toRat_ofNat, filter_inter_card,
      dedup_union_card, specJaccard, specIoU]
  · show 0 < 1 * ((jsDedup (jsDedup (jsSplitWs t1) ++ jsDedup (jsSplitWs t2))).length : Int)
    omega

theorem calculateSemanticSimilarity_spec (l1 l2 : List String) :
    (calculateSemanticSimilarity l1 l2).toRat = specSemantic l1 l2 ∧
    0 < (calculateSemanticSimilarity l1 l2).den := by
  rw [calculateSemanticSimilarity]
  by_cases hg : l1.length = 0 ∨ l2.length = 0
  · rw [if_pos hg]
    refine ⟨?_, by simp [Frac.ofNat]⟩
    rw [Frac.toRat_ofNat, specSemantic, specIoU]
    rcases hg with h | h
    · rw [List.length_eq_zero.mp h]
      simp
    · rw [List.length_eq_zero.mp h]
      simp
  · rw [if_neg hg]
    push_neg at hg
    have h1 : jsDedup (jsDedup l1 ++ jsDedup l2) ≠ [] := by
      rw [Ne, jsDedup_eq_nil_iff, List.append_eq_nil]
      rintro ⟨ha, _⟩
      rw [jsDedup_eq_nil_iff] at ha
      exact hg.1 (by rw [ha]; rfl)
    constructor
    · rw [Frac.toRat_div, Frac.toRat_ofNat, Frac.toRat_ofNat, filter_inter_card,
        dedup_union_card, specSemantic, specIoU]
    · show 0 < 1 * ((jsDedup (jsDedup l1 ++ jsDedup l2)).length : Int)
      have := List.length_pos.mpr h1
      omega

theorem themeLabelSimilarity_spec (a b : String) :
    (themeLabelSimilarity a b).toRat = specThemeSim a b ∧
    0 < (themeLabelSimilarity a b).den := by
  rw [themeLabelSimilarity, specThemeSim]
  by_cases he : a = b
  · rw [if_pos he, if_pos he]
    exact ⟨by simp [Frac.ofNat, Frac.toRat], by simp [Frac.ofNat]⟩
  · rw [if_neg he, if_neg he]
    have hmax : 0 < max (jsSplitChar '_' a).length (jsSplitChar '_' b).length := by
      have := List.length_pos.mpr (jsSplitChar_ne_nil '_' a)
      omega
    simp only [if_pos hmax]
    constructor
    · rw [Frac.toRat_div, Frac.toRat_ofNat, Frac.toRat_ofNat]
      push_cast
      rfl
    · show (0 : Int) < 1 * ((max (jsSplitChar '_' a).length (jsSplitChar '_' b).length : Nat) : Int)
      have h2 : (0 : Int) <
          ((max (jsSplitChar '_' a).length (jsSplitChar '_' b).length : Nat) : Int) := by
        exact_mod_cast hmax
      linarith

theorem calculateThemeSimilarity_spec (t1 t2 : String) :
    (calculateThemeSimilarity t1 t2).toRat =
      specThemeSim (enhancedExtractTheme t1) (enhancedExtractTheme t2) ∧
    0 < (calculateThemeSimilarity t1 t2).den := by
  rw [calculateThemeSimilarity]
  exact themeLabelSimilarity_spec _ _

theorem Frac.den_add (a b : Frac) : (a.add b).den = a.den * b.den := rfl

theorem Frac.den_mul (a b : Frac) : (a.mul b).den = a.den * b.den := rfl

theorem combinedSimilarity_den_pos (r o : RawResponse) : 0 < (combinedSimilarity r o).den := by
  obtain ⟨-, hjd⟩ := calculateJaccardSimilarity_spec r.normalizedText o.normalizedText
  obtain ⟨-, hsd⟩ := calculateSemanticSimilarity_spec r.semanticTokens o.semanticTokens
  obtain ⟨-, htd⟩ := calculateThemeSimilarity_spec r.text o.text
  rw [combinedSimilarity, Frac.den_add, Frac.den_add, Frac.den_mul, Frac.den_mul, Frac.den_mul]
  have h10 : (0 : Int) < (Frac.mk 3 10).den := by decide
  have h10b : (0 : Int) < (Frac.mk 4 10).den := by decide
  exact mul_pos (mul_pos (mul_pos hjd h10) (mul_pos hsd h10b)) (mul_pos htd h10)

theorem combinedSimilarity_toRat (r o : RawResponse) :
    (combinedSimilarity r o).toRat = specCombinedScore r o := by
  obtain ⟨hj, hjd⟩ := calculateJaccardSimilarity_spec r.normalizedText o.normalizedText
  obtain ⟨hs, hsd⟩ := calculateSemanticSimilarity_spec r.semanticTokens o.semanticTokens
  obtain ⟨ht, htd⟩ := calculateThemeSimilarity_spec r.text o.text
  have h10 : (0 : Int) < (Frac.mk 3 10).den := by decide
  have h10b : (0 : Int) < (Frac.mk 4 10).den := by decide
  have hd1 : ((calculateJaccardSimilarity r.normalizedText o.normalizedText).mul ⟨3, 10⟩).den ≠ 0 := by
    rw [Frac.den_mul]
    exact ne_of_gt (mul_pos hjd h10)
  have hd2 : ((calculateSemanticSimilarity r.semanticTokens o.semanticTokens).mul ⟨4, 10⟩).den ≠ 0 := by
    rw [Frac.den_mul]
    exact ne_of_gt (mul_pos hsd h10b)
  have hd3 : (((calculateJaccardSimilarity r.normalizedText o.normalizedText).mul ⟨3, 10⟩).add
      ((calculateSemanticSimilarity r.semanticTokens o.semanticTokens).mul ⟨4, 10⟩)).den ≠ 0 := by
    rw [Frac.den_add]
    exact mul_ne_zero hd1 hd2
  have hd4 : ((calculateThemeSimilarity r.text o.text).mul ⟨3, 10⟩).den ≠ 0 := by
    rw [Frac.den_mul]
    exact ne_of_gt (mul_pos htd h10)
  have c3 : ((⟨3, 10⟩ : Frac)).toRat = 3 / 10 := by norm_num [Frac.toRat]
  have c4 : ((⟨4, 10⟩ : Frac)).toRat = 4 / 10 := by norm_num [Frac.toRat]
  rw [combinedSimilarity, Frac.toRat_add _ _ hd3 hd4, Frac.toRat_add _ _ hd1 hd2,
    Frac.toRat_mul, Frac.toRat_mul, Frac.toRat_mul, hj, hs, ht, c3, c4, specCombinedScore]
  rw [calculateThemeSimilarity] at ht
  ring

theorem similarCond_iff_spec (r o : RawResponse) :
    similarCond r o = true ↔ specCombinedScore r o > 0.45 := by
  rw [similarCond, Frac.blt_iff_toRat_lt _ _ (by decide) (combinedSimilarity_den_pos r o),
    combinedSimilarity_toRat]
  have h45 : ((⟨45, 100⟩ : Frac)).toRat = 0.45 := by norm_num [Frac.toRat]
  rw [h45]

theorem absorbPass_eq (seed : RawResponse) (cluster : WorkCluster) (l : List RawResponse) :
    absorbPass seed cluster l =
      (List.foldl absorbOne cluster (l.filter (fun r => similarCond seed r)),
       l.filter (fun r => !similarCond seed r)) := by
  induction l generalizing cluster with
  | nil => simp [absorbPass]
  | cons other rest ih =>
    rw [absorbPass]
    by_cases h : similarCond seed other
    · rw [if_pos h, ih]
      simp [List.filter_cons, h]
    · rw [if_neg h, ih]
      simp only [List.filter_cons]
      rw [Bool.not_eq_true] at h
      simp [h]

theorem foldl_absorbOne_count (cluster : WorkCluster) (l : List RawResponse) :
    (List.foldl absorbOne cluster l).count = cluster.count + l.length := by
  induction l generalizing cluster with
  | nil => simp
  | cons r rest ih =>
    rw [List.foldl_cons, ih]
    have hone : (absorbOne cluster r).count = cluster.count + 1 := rfl
    rw [hone, List.length_cons]
    omega

theorem sumCounts_cons (c : Cluster) (l : List Cluster) :
    sumCounts (c :: l) = c.count + sumCounts l := by
  simp [sumCounts]

theorem length_filter_partition {α : Type} (p : α → Bool) (l : List α) :
    (l.filter p).length + (l.filter (fun x => !p x)).length = l.length := by
  induction l with
  | nil => rfl
  | cons x xs ih =>
    by_cases h : p x
    · simp [List.filter_cons, h, ← ih]
      omega
    · rw [Bool.not_eq_true] at h
      simp [List.filter_cons, h, ← ih]
      omega

theorem clusterLoopF_sum (fuel : Nat) :
    ∀ l : List RawResponse, l.length ≤ fuel → sumCounts (clusterLoopF fuel l) = l.length := by
  induction fuel with
  | zero =>
    intro l hl
    cases l with
    | nil => rfl
    | cons seed rest => simp at hl
  | succ fuel ih =>
    intro l hl
    cases l with
    | nil => rfl
    | cons seed rest =>
      rw [clusterLoopF, sumCounts_cons]
      have hfin : (finalizeCluster (absorbPass seed (seedCluster seed) rest).1).count =
          (absorbPass seed (seedCluster seed) rest).1.count := rfl
      rw [hfin, absorbPass_eq, foldl_absorbOne_count]
      have hseed : (seedCluster seed).count = 1 := rfl
      have hrest : ((rest.filter (fun r => !similarCond seed r)).length ≤ fuel) := by
        have h1 := length_filter_partition (fun r => similarCond seed r) rest
        simp only [List.length_cons] at hl
        omega
      rw [ih _ hrest, hseed]
      have h1 := length_filter_partition (fun r => similarCond seed r) rest
      simp only [List.length_cons]
      omega

theorem clusterLoop_sum (l : List RawResponse) : sumCounts (clusterLoop l) = l.length :=
  clusterLoopF_sum l.length l le_rfl

theorem mergePass_eq (cl cur : Cluster) (l : List Cluster) :
    mergePass cl cur l =
      (List.foldl (mergeInto cl) cur (l.filter (fun d => themeMergeCond cl d)),
       l.filter (fun d => !themeMergeCond cl d)) := by
  induction l generalizing cur with
  | nil => simp [mergePass]
  | cons other rest ih =>
    rw [mergePass]
    by_cases h : themeMergeCond cl other
    · rw [if_pos h, ih]
      simp [List.filter_cons, h]
    · rw [if_neg h, ih]
      simp only [List.filter_cons]
      rw [Bool.not_eq_true] at h
      simp [h]

theorem foldl_mergeInto_count (cl cur : Cluster) (l : List Cluster) :
    (List.foldl (mergeInto cl) cur l).count = cur.count + sumCounts l := by
  induction l generalizing cur with
  | nil => simp [sumCounts]
  | cons d rest ih =>
    rw [List.foldl_cons, ih, sumCounts_cons]
    have hone : (mergeInto cl cur d).count = cur.count + d.count := rfl
    rw [hone]
    omega

theorem sumCounts_filter_partition (p : Cluster → Bool) (l : List Cluster) :
    sumCounts (l.filter p) + sumCounts (l.filter (fun x => !p x)) = sumCounts l := by
  induction l with
  | nil => rfl
  | cons x xs ih =>
    by_cases h : p x
    · simp only [List.filter_cons, h, Bool.not_true, if_pos, sumCounts_cons]
      rw [if_neg (by simp)]
      rw [← ih]
      omega
    · rw [Bool.not_eq_true] at h
      simp only [List.filter_cons, h, Bool.not_false, sumCounts_cons, if_true, if_false]
      rw [if_neg (by simp)]
      rw [← ih]
      omega

theorem mergeLoopF_sum (fuel : Nat) :
    ∀ l : List Cluster, l.length ≤ fuel → sumCounts (mergeLoopF fuel l) = sumCounts l := by
  induction fuel with
  | zero =>
    intro l hl
    cases l with
    | nil => rfl
    | cons c rest => simp at hl
  | succ fuel ih =>
    intro l hl
    cases l with
    | nil => rfl
    | cons c rest =>
      rw [mergeLoopF, sumCounts_cons, mergePass_eq]
      have hlen : ((rest.filter (fun d => !themeMergeCond c d)).length ≤ fuel) := by
        have := length_filter_partition (fun d => themeMergeCond c d) rest
        simp only [List.length_cons] at hl
        omega
      rw [ih _ hlen, foldl_mergeInto_count, sumCounts_cons]
      have := sumCounts_filter_partition (fun d => themeMergeCond c d) rest
      omega

theorem mergeLoop_sum (l : List Cluster) : sumCounts (mergeLoop l) = sumCounts l :=
  mergeLoopF_sum l.length l le_rfl

theorem postProcess_sum (l : List Cluster) :
    sumCounts (postProcessClustersWithExamples l) = sumCounts l := by
  rw [postProcessClustersWithExamples]
  by_cases h : l.length < 2
  · rw [if_pos h]
  · rw [if_neg h]
    exact mergeLoop_sum l

theorem foldl_absorbOne_examples_len (c : WorkCluster) (l : List RawResponse)
    (h : c.examples.length ≤ 8) : (List.foldl absorbOne c l).examples.length ≤ 8 := by
  induction l generalizing c with
  | nil => exact h
  | cons r rest ih =>
    rw [List.foldl_cons]
    apply ih
    show (if c.examples.length < 8 then c.examples ++ [r.fullOriginal]
      else c.examples).length ≤ 8
    by_cases hc : c.examples.length < 8
    · rw [if_pos hc]
      rw [List.length_append]
      simp only [List.length_singleton]
      omega
    · rw [if_neg hc]
      exact h

theorem foldl_absorbOne_examples_mem (c : WorkCluster) (l : List RawResponse) :
    ∀ e ∈ (List.foldl absorbOne c l).examples,
      e ∈ c.examples ∨ e ∈ l.map RawResponse.fullOriginal := by
  induction l generalizing c with
  | nil =>
    intro e he
    exact Or.inl he
  | cons r rest ih =>
    intro e he
    rw [List.foldl_cons] at he
    rcases ih _ e he with h1 | h1
    · have habs : (absorbOne c r).examples =
          if c.examples.length < 8 then c.examples ++ [r.fullOriginal] else c.examples := rfl
      rw [habs] at h1
      by_cases hc : c.examples.length < 8
      · rw [if_pos hc] at h1
        rcases List.mem_append.mp h1 with h2 | h2
        · exact Or.inl h2
        · right
          rw [List.map_cons]
          exact List.mem_cons.mpr (Or.inl (List.mem_singleton.mp h2))
      · rw [if_neg hc] at h1
        exact Or.inl h1
    · right
      rw [List.map_cons]
      exact List.mem_cons.mpr (Or.inr h1)

theorem clusterLoopF_examples (fuel : Nat) :
    ∀ l : List RawResponse, l.length ≤ fuel → ∀ cl ∈ clusterLoopF fuel l,
      cl.examples.length ≤ 8 ∧ ∀ e ∈ cl.examples, e ∈ l.map RawResponse.fullOriginal := by
  induction fuel with
  | zero =>
    intro l hl cl hcl
    cases l with
    | nil => simp [clusterLoopF] at hcl
    | cons seed rest => simp at hl
  | succ fuel ih =>
    intro l hl cl hcl
    cases l with
    | nil => simp [clusterLoopF] at hcl
    | cons seed rest =>
      rw [clusterLoopF] at hcl
      have hfin : (finalizeCluster (absorbPass seed (seedCluster seed) rest).1).examples =
          (absorbPass seed (seedCluster seed) rest).1.examples := rfl
      have hseedex : (seedCluster seed).examples = [seed.fullOriginal] := rfl
      rcases List.mem_cons.mp hcl with h | h
      · subst h
        constructor
        · rw [hfin, absorbPass_eq]
          apply foldl_absorbOne_examples_len
          rw [hseedex]
          simp
        · intro e he
          rw [hfin, absorbPass_eq] at he
          rcases foldl_absorbOne_examples_mem _ _ e he with h1 | h1
          · rw [hseedex] at h1
            rw [List.mem_singleton.mp h1, List.map_cons]
            exact List.mem_cons.mpr (Or.inl rfl)
          · rcases List.mem_map.mp h1 with ⟨r, hr, hre⟩
            rw [List.map_cons]
            refine List.mem_cons.mpr (Or.inr ?_)
            exact List.mem_map.mpr ⟨r, List.mem_of_mem_filter hr, hre⟩
      · have hrest : ((absorbPass seed (seedCluster seed) rest).2.length ≤ fuel) := by
          have h1 := absorbPass_snd_length_le seed (seedCluster seed) rest
          simp only [List.length_cons] at hl
          omega
        have hres := ih _ hrest cl h
        refine ⟨hres.1, fun e he => ?_⟩
        rcases List.mem_map.mp (hres.2 e he) with ⟨r, hr, hre⟩
        rw [absorbPass_eq] at hr
        rw [List.map_cons]
        refine List.mem_cons.mpr (Or.inr ?_)
        exact List.mem_map.mpr ⟨r, List.mem_of_mem_filter hr, hre⟩

theorem mergeInto_examples_len (cl cur o : Cluster) :
    (mergeInto cl cur o).examples.length ≤ 8 := by
  show ((jsDedup (cur.examples ++ o.examples)).take 8).length ≤ 8
  rw [List.length_take]
  omega

theorem mergeInto_examples_mem (cl cur o : Cluster) :
    ∀ e ∈ (mergeInto cl cur o).examples, e ∈ cur.examples ∨ e ∈ o.examples := by
  intro e he
  have h1 : (mergeInto cl cur o).examples = (jsDedup (cur.examples ++ o.examples)).take 8 := rfl
  rw [h1] at he
  have h2 : e ∈ jsDedup (cur.examples ++ o.examples) := List.take_subset _ _ he
  rw [mem_jsDedup] at h2
  exact List.mem_append.mp h2

theorem foldl_mergeInto_examples (cl : Cluster) (l : List Cluster) :
    ∀ cur : Cluster, cur.examples.length ≤ 8 →
      (List.foldl (mergeInto cl) cur l).examples.length ≤ 8 ∧
      ∀ e ∈ (List.foldl (mergeInto cl) cur l).examples,
        e ∈ cur.examples ∨ ∃ d ∈ l, e ∈ d.examples := by
  induction l with
  | nil =>
    intro cur hcur
    exact ⟨hcur, fun e he => Or.inl he⟩
  | cons d rest ih =>
    intro cur hcur
    rw [List.foldl_cons]
    have hres := ih (mergeInto cl cur d) (mergeInto_examples_len cl cur d)
    refine ⟨hres.1, fun e he => ?_⟩
    rcases hres.2 e he with h1 | ⟨d2, hd2, he2⟩
    · rcases mergeInto_examples_mem cl cur d e h1 with h2 | h2
      · exact Or.inl h2
      · exact Or.inr ⟨d, List.mem_cons_self _ _, h2⟩
    · exact Or.inr ⟨d2, List.mem_cons.mpr (Or.inr hd2), he2⟩

theorem mergeLoopF_examples (fuel : Nat) :
    ∀ l : List Cluster, l.length ≤ fuel → (∀ c ∈ l, c.examples.length ≤ 8) →
      ∀ cl ∈ mergeLoopF fuel l,
        cl.examples.length ≤ 8 ∧ ∀ e ∈ cl.examples, ∃ d ∈ l, e ∈ d.examples := by
  induction fuel with
  | zero =>
    intro l hl hall cl hcl
    cases l with
    | nil => simp [mergeLoopF] at hcl
    | cons c rest => simp at hl
  | succ fuel ih =>
    intro l hl hall cl hcl
    cases l with
    | nil => simp [mergeLoopF] at hcl
    | cons c rest =>
      rw [mergeLoopF] at hcl
      rcases List.mem_cons.mp hcl with h | h
      · subst h
        rw [mergePass_eq]
        have hres := foldl_mergeInto_examples c (rest.filter (fun d => themeMergeCond c d)) c
          (hall c (List.mem_cons_self _ _))
        refine ⟨hres.1, fun e he => ?_⟩
        rcases hres.2 e he with h1 | ⟨d, hd, he2⟩
        · exact ⟨c, List.mem_cons_self _ _, h1⟩
        · exact ⟨d, List.mem_cons.mpr (Or.inr (List.mem_of_mem_filter hd)), he2⟩
      · have hlen : ((mergePass c c rest).2.length ≤ fuel) := by
          have := mergePass_snd_length_le c c rest
          simp only [List.length_cons] at hl
          omega
        have hall2 : ∀ d ∈ (mergePass c c rest).2, d.examples.length ≤ 8 := by
          intro d hd
          rw [mergePass_eq] at hd
          exact hall d (List.mem_cons.mpr (Or.inr (List.mem_of_mem_filter hd)))
        have hres := ih _ hlen hall2 cl h
        refine ⟨hres.1, fun e he => ?_⟩
        rcases hres.2 e he with ⟨d, hd, he2⟩
        rw [mergePass_eq] at hd
        exact ⟨d, List.mem_cons.mpr (Or.inr (List.mem_of_mem_filter hd)), he2⟩

theorem postProcess_examples (l : List Cluster) (hall : ∀ c ∈ l, c.examples.length ≤ 8) :
    ∀ cl ∈ postProcessClustersWithExamples l,
      cl.examples.length ≤ 8 ∧ ∀ e ∈ cl.examples, ∃ d ∈ l, e ∈ d.examples := by
  rw [postProcessClustersWithExamples]
  by_cases h : l.length < 2
  · rw [if_pos h]
    intro cl hcl
    exact ⟨hall cl hcl, fun e he => ⟨cl, hcl, he⟩⟩
  · rw [if_neg h]
    exact mergeLoopF_examples l.length l le_rfl hall

theorem firstMaxBy_eq_none {α : Type} (f : α → Nat) (l : List α) :
    firstMaxBy f l = none ↔ l = [] := by
  cases l with
  | nil => simp [firstMaxBy]
  | cons x xs => simp [firstMaxBy]

theorem firstMaxBy_mem {α : Type} (f : α → Nat) (l : List α) (b : α)
    (h : firstMaxBy f l = some b) : b ∈ l := by
  induction l with
  | nil => simp [firstMaxBy] at h
  | cons x xs ih =>
    rw [firstMaxBy] at h
    simp only [Option.some.injEq] at h
    cases hm : firstMaxBy f xs with
    | none =>
      rw [hm, Option.elim_none] at h
      rw [← h]
      exact List.mem_cons_self _ _
    | some y =>
      rw [hm, Option.elim_some] at h
      by_cases hc : f y > f x
      · rw [if_pos hc] at h
        exact List.mem_cons.mpr (Or.inr (ih (by rw [hm, h])))
      · rw [if_neg hc] at h
        rw [← h]
        exact List.mem_cons_self _ _

/-- The source's strictly-greater left fold over the dictionaries computes the
first maximum (relative to the initial accumulator). -/
theorem foldl_best {α : Type} (f : α → Nat) (g : α → String) (l : List α) :
    ∀ b : String × Nat,
      List.foldl (fun best p => if f p > best.2 then (g p, f p) else best) b l =
        (firstMaxBy f l).elim b (fun p => if f p > b.2 then (g p, f p) else b) := by
  induction l with
  | nil =>
    intro b
    simp [firstMaxBy]
  | cons x xs ih =>
    intro b
    rw [List.foldl_cons, ih, firstMaxBy, Option.elim_some]
    cases hm : firstMaxBy f xs with
    | none =>
      simp only [Option.elim_none]
    | some y =>
      simp only [Option.elim_some]
      by_cases h1 : f y > f x
      · rw [if_pos h1]
        by_cases h2 : f x > b.2
        · rw [if_pos h2]
          have h3 : f y > (g x, f x).2 := h1
          rw [if_pos h3]
          have h4 : f y > b.2 := by omega
          rw [if_pos h4]
        · rw [if_neg h2]
      · rw [if_neg h1]
        by_cases h2 : f x > b.2
        · rw [if_pos h2]
          have h3 : ¬ f y > (g x, f x).2 := h1
          rw [if_neg h3]
        · rw [if_neg h2]
          by_cases h3 : f y > b.2
          · omega
          · rw [if_neg h3]

/-- `enhancedExtractTheme` agrees with the spec-worded
`specExtractTheme`. -/
theorem enhancedExtractTheme_eq_spec (text : String) :
    enhancedExtractTheme text = specExtractTheme text := by
  rw [enhancedExtractTheme, specExtractTheme]
  rw [foldl_best (fun p => themeScore (jsSplitWs (jsLower text)) p.2) Prod.fst themeKeywords
    ("other", 0)]
  cases hm : firstMaxBy (fun p => themeScore (jsSplitWs (jsLower text)) p.2) themeKeywords with
  | none =>
    have h0 : themeKeywords = [] := (firstMaxBy_eq_none _ _).mp hm
    simp [themeKeywords] at h0
  | some p =>
    rw [Option.elim_some, Option.elim_some]
    by_cases hp : themeScore (jsSplitWs (jsLower text)) p.2 > 0
    · have h2 : themeScore (jsSplitWs (jsLower text)) p.2 > ("other", (0 : Nat)).2 := hp
      rw [if_pos h2, if_pos hp]
      have h3 : ¬ ((p.1, themeScore (jsSplitWs (jsLower text)) p.2).1 = "other" ∧
          (p.1, themeScore (jsSplitWs (jsLower text)) p.2).2 = 0) := by
        rintro ⟨-, h4⟩
        simp only at h4
        omega
      rw [if_neg h3]
    · have h2 : ¬ themeScore (jsSplitWs (jsLower text)) p.2 > ("other", (0 : Nat)).2 := hp
      rw [if_neg h2, if_neg hp, specFallbackTheme]
      rw [if_pos ⟨rfl, rfl⟩]

theorem themeScore_eq_zero (words : List String) (ks : List String)
    (h : ∀ k ∈ ks, k ∉ words) : themeScore words ks = 0 := by
  rw [themeScore]
  have h1 : ks.filter (fun k => words.contains k) = [] := by
    rw [List.filter_eq_nil_iff]
    intro k hk
    simp [h k hk]
  have h2 : ks.any (fun k => words.contains k) = false := by
    rw [List.any_eq_false]
    intro k hk
    simp [h k hk]
  rw [h1, h2]
  simp

theorem themeScore_pos (words : List String) (ks : List String) (k : String)
    (hk : k ∈ ks) (hw : k ∈ words) : 0 < themeScore words ks := by
  rw [themeScore]
  have h2 : ks.any (fun k => words.contains k) = true := by
    rw [List.any_eq_true]
    exact ⟨k, hk, by simp [hw]⟩
  rw [h2]
  simp

theorem firstMaxBy_cons_of_le {α : Type} (f : α → Nat) (a : α) (post : List α)
    (h : ∀ x ∈ post, f x ≤ f a) : firstMaxBy f (a :: post) = some a := by
  rw [firstMaxBy]
  cases hm : firstMaxBy f post with
  | none => rw [Option.elim_none]
  | some y =>
    have hy : y ∈ post := firstMaxBy_mem f post y hm
    have h2 : ¬ f y > f a := by
      have := h y hy
      omega
    rw [Option.elim_some, if_neg h2]

theorem firstMaxBy_of_zeros {α : Type} (f : α → Nat) (pre : List α) (l : List α) (b : α)
    (hpre : ∀ x ∈ pre, f x = 0) (hl : firstMaxBy f l = some b) (hb : 0 < f b) :
    firstMaxBy f (pre ++ l) = some b := by
  induction pre with
  | nil => simpa using hl
  | cons x xs ih =>
    rw [List.cons_append, firstMaxBy]
    rw [ih (fun z hz => hpre z (List.mem_cons.mpr (Or.inr hz)))]
    have hx : f x = 0 := hpre x (List.mem_cons_self _ _)
    have h2 : f b > f x := by omega
    rw [Option.elim_some, if_pos h2]

theorem except_bind_error {ε α β : Type} (e : ε) (f : α → Except ε β) :
    ((Except.error e : Except ε α) >>= f) = Except.error e := rfl

theorem except_bind_ok {ε α β : Type} (a : α) (f : α → Except ε β) :
    ((Except.ok a : Except ε α) >>= f) = f a := rfl

/-- A number record is skipped: only the unique-department metadata set
records its defaulted `Unknown` department. -/
theorem processRecord_num (st : AggState) (k : Int) :
    processRecord st (.num k) =
      .ok { st with uniqueDepartments := jsInsert st.uniqueDepartments (.str "Unknown") } := rfl

/-- A boolean record is skipped in the same way. -/
theorem processRecord_bool (st : AggState) (b : Bool) :
    processRecord st (.bool b) =
      .ok { st with uniqueDepartments := jsInsert st.uniqueDepartments (.str "Unknown") } := rfl

theorem processRecord_null (st : AggState) :
    processRecord st .null = .error "TypeError: Cannot read properties of null" := rfl

theorem foldl_R {α : Type} (f : AggState → α → AggState)
    (hf : ∀ s1 s2 a, s1.byCategory = s2.byCategory → s1.byLeader = s2.byLeader →
      s1.uniqueLeaders = s2.uniqueLeaders →
      (f s1 a).byCategory = (f s2 a).byCategory ∧ (f s1 a).byLeader = (f s2 a).byLeader ∧
        (f s1 a).uniqueLeaders = (f s2 a).uniqueLeaders) :
    ∀ (l : List α) (s1 s2 : AggState), s1.byCategory = s2.byCategory →
      s1.byLeader = s2.byLeader → s1.uniqueLeaders = s2.uniqueLeaders →
      (List.foldl f s1 l).byCategory = (List.foldl f s2 l).byCategory ∧
      (List.foldl f s1 l).byLeader = (List.foldl f s2 l).byLeader ∧
      (List.foldl f s1 l).uniqueLeaders = (List.foldl f s2 l).uniqueLeaders := by
  intro l
  induction l with
  | nil =>
    intro s1 s2 h1 h2 h3
    exact ⟨h1, h2, h3⟩
  | cons a rest ih =>
    intro s1 s2 h1 h2 h3
    rw [List.foldl_cons, List.foldl_cons]
    obtain ⟨g1, g2, g3⟩ := hf s1 s2 a h1 h2 h3
    exact ih _ _ g1 g2 g3

/-- `processText` acts on the category data, leader data and leader set
independently of the department metadata set. -/
theorem processText_R (stA stB : AggState) (ln : Option String) (dep : JSVal) (cat txt : String)
    (h1 : stA.byCategory = stB.byCategory) (h2 : stA.byLeader = stB.byLeader)
    (h3 : stA.uniqueLeaders = stB.uniqueLeaders) :
    (processText stA ln dep cat txt).byCategory = (processText stB ln dep cat txt).byCategory ∧
    (processText stA ln dep cat txt).byLeader = (processText stB ln dep cat txt).byLeader ∧
    (processText stA ln dep cat txt).uniqueLeaders =
      (processText stB ln dep cat txt).uniqueLeaders := by
  by_cases hv : isValidTextString txt
  · cases ln with
    | none => refine ⟨?_, ?_, ?_⟩ <;> simp [processText, hv, h1, h2, h3]
    | some l =>
      by_cases hl : l = ""
      · subst hl
        refine ⟨?_, ?_, ?_⟩ <;> simp [processText, hv, h1, h2, h3]
      · refine ⟨?_, ?_, ?_⟩ <;> simp [processText, hv, hl, h1, h2, h3]
  · refine ⟨?_, ?_, ?_⟩ <;> simp [processText, hv, h1, h2, h3]

/-- `processRecord` treats the category data, leader data and leader set
independently of the department metadata set, and whether it throws depends
only on the record. -/
theorem processRecord_R (r : JSVal) (s1 s2 : AggState)
    (h1 : s1.byCategory = s2.byCategory) (h2 : s1.byLeader = s2.byLeader)
    (h3 : s1.uniqueLeaders = s2.uniqueLeaders) :
    (∀ e, processRecord s1 r = .error e ↔ processRecord s2 r = .error e) ∧
    (∀ t1, processRecord s1 r = .ok t1 → ∃ t2, processRecord s2 r = .ok t2 ∧
      t1.byCategory = t2.byCategory ∧ t1.byLeader = t2.byLeader ∧
      t1.uniqueLeaders = t2.uniqueLeaders) := by
  cases r with
  | null => exact ⟨fun e => Iff.rfl, fun t1 h => absurd h (by simp [processRecord])⟩
  | undefined => exact ⟨fun e => Iff.rfl, fun t1 h => absurd h (by simp [processRecord])⟩
  | bool b =>
    rw [processRecord_bool, processRecord_bool]
    constructor
    · intro e
      constructor
      · intro h
        exact absurd h (by simp)
      · intro h
        exact absurd h (by simp)
    · intro t1 ht
      have ht1 : _ = t1 := Except.ok.inj ht
      refine ⟨_, rfl, ?_, ?_, ?_⟩ <;> rw [← ht1] <;> simp [h1, h2, h3]
  | num n =>
    rw [processRecord_num, processRecord_num]
    constructor
    · intro e
      constructor
      · intro h
        exact absurd h (by simp)
      · intro h
        exact absurd h (by simp)
    · intro t1 ht
      have ht1 : _ = t1 := Except.ok.inj ht
      refine ⟨_, rfl, ?_, ?_, ?_⟩ <;> rw [← ht1] <;> simp [h1, h2, h3]
  | str s =>
    simp only [processRecord]
    cases hx : extractLeaderName (jsGetField (JSVal.str s) "_steamLeader") with
    | error e0 =>
      simp only [except_bind_error]
      exact ⟨fun e => trivial, fun t1 ht => absurd ht (by simp)⟩
    | ok ln =>
      simp only [except_bind_ok]
      constructor
      · intro e
        constructor
        · intro h
          exact absurd h (by simp)
        · intro h
          exact absurd h (by simp)
      · intro t1 ht
        have ht1 : _ = t1 := Except.ok.inj ht
        refine ⟨_, rfl, ?_⟩
        rw [← ht1]
        apply foldl_R
        · intro a1 a2 m b1 b2 b3
          exact foldl_R _ (fun c1 c2 t d1 d2 d3 => processText_R c1 c2 ln _ m.category t d1 d2 d3)
            _ a1 a2 b1 b2 b3
        · cases ln with
          | none => simp [h1]
          | some l =>
            dsimp only
            by_cases hc : l ≠ "" ∧ (List.lookup l s1.byLeader).isNone = true
            · have hc2 : l ≠ "" ∧ (List.lookup l s2.byLeader).isNone = true := by
                rw [← h2]
                exact hc
              rw [if_pos hc, if_pos hc2]
              simp [h1]
            · have hc2 : ¬ (l ≠ "" ∧ (List.lookup l s2.byLeader).isNone = true) := by
                rw [← h2]
                exact hc
              rw [if_neg hc, if_neg hc2]
              simp [h1]
        · cases ln with
          | none => simp [h2]
          | some l =>
            dsimp only
            by_cases hc : l ≠ "" ∧ (List.lookup l s1.byLeader).isNone = true
            · have hc2 : l ≠ "" ∧ (List.lookup l s2.byLeader).isNone = true := by
                rw [← h2]
                exact hc
              rw [if_pos hc, if_pos hc2]
              simp [h2]
            · have hc2 : ¬ (l ≠ "" ∧ (List.lookup l s2.byLeader).isNone = true) := by
                rw [← h2]
                exact hc
              rw [if_neg hc, if_neg hc2]
              simp [h2]
        · cases ln with
          | none => simp [h3]
          | some l =>
            dsimp only
            by_cases hc : l ≠ "" ∧ (List.lookup l s1.byLeader).isNone = true
            · have hc2 : l ≠ "" ∧ (List.lookup l s2.byLeader).isNone = true := by
                rw [← h2]
                exact hc
              rw [if_pos hc, if_pos hc2]
              simp [h3]
            · have hc2 : ¬ (l ≠ "" ∧ (List.lookup l s2.byLeader).isNone = true) := by
                rw [← h2]
                exact hc
              rw [if_neg hc, if_neg hc2]
              simp [h3]
  | obj fields =>
    simp only [processRecord]
    cases hx : extractLeaderName (jsGetField (JSVal.obj fields) "_steamLeader") with
    | error e0 =>
      simp only [except_bind_error]
      exact ⟨fun e => trivial, fun t1 ht => absurd ht (by simp)⟩
    | ok ln =>
      simp only [except_bind_ok]
      constructor
      · intro e
        constructor
        · intro h
          exact absurd h (by simp)
        · intro h
          exact absurd h (by simp)
      · intro t1 ht
        have ht1 : _ = t1 := Except.ok.inj ht
        refine ⟨_, rfl, ?_⟩
        rw [← ht1]
        apply foldl_R
        · intro a1 a2 m b1 b2 b3
          exact foldl_R _ (fun c1 c2 t d1 d2 d3 => processText_R c1 c2 ln _ m.category t d1 d2 d3)
            _ a1 a2 b1 b2 b3
        · cases ln with
          | none => simp [h1]
          | some l =>
            dsimp only
            by_cases hc : l ≠ "" ∧ (List.lookup l s1.byLeader).isNone = true
            · have hc2 : l ≠ "" ∧ (List.lookup l s2.byLeader).isNone = true := by
                rw [← h2]
                exact hc
              rw [if_pos hc, if_pos hc2]
              simp [h1]
            · have hc2 : ¬ (l ≠ "" ∧ (List.lookup l s2.byLeader).isNone = true) := by
                rw [← h2]
                exact hc
              rw [if_neg hc, if_neg hc2]
              simp [h1]
        · cases ln with
          | none => simp [h2]
          | some l =>
            dsimp only
            by_cases hc : l ≠ "" ∧ (List.lookup l s1.byLeader).isNone = true
            · have hc2 : l ≠ "" ∧ (List.lookup l s2.byLeader).isNone = true := by
                rw [← h2]
                exact hc
              rw [if_pos hc, if_pos hc2]
              simp [h2]
            · have hc2 : ¬ (l ≠ "" ∧ (List.lookup l s2.byLeader).isNone = true) := by
                rw [← h2]
                exact hc
              rw [if_neg hc, if_neg hc2]
              simp [h2]
        · cases ln with
          | none => simp [h3]
          | some l =>
            dsimp only
            by_cases hc : l ≠ "" ∧ (List.lookup l s1.byLeader).isNone = true
            · have hc2 : l ≠ "" ∧ (List.lookup l s2.byLeader).isNone = true := by
                rw [← h2]
                exact hc
              rw [if_pos hc, if_pos hc2]
              simp [h3]
            · have hc2 : ¬ (l ≠ "" ∧ (List.lookup l s2.byLeader).isNone = true) := by
                rw [← h2]
                exact hc
              rw [if_neg hc, if_neg hc2]
              simp [h3]

theorem foldlM_R :
    ∀ (l : List JSVal) (s1 s2 : AggState), s1.byCategory = s2.byCategory →
      s1.byLeader = s2.byLeader → s1.uniqueLeaders = s2.uniqueLeaders →
      (∀ e, List.foldlM processRecord s1 l = .error e ↔
        List.foldlM processRecord s2 l = .error e) ∧
      (∀ t1, List.foldlM processRecord s1 l = .ok t1 →
        ∃ t2, List.foldlM processRecord s2 l = .ok t2 ∧
          t1.byCategory = t2.byCategory ∧ t1.byLeader = t2.byLeader ∧
          t1.uniqueLeaders = t2.uniqueLeaders) := by
  intro l
  induction l with
  | nil =>
    intro s1 s2 h1 h2 h3
    constructor
    · intro e
      simp [List.foldlM, pure, Except.pure]
    · intro t1 ht
      simp only [List.foldlM] at ht
      have ht1 : _ = t1 := Except.ok.inj ht
      exact ⟨s2, rfl, by rw [← ht1]; exact ⟨h1, h2, h3⟩⟩
  | cons r rest ih =>
    intro s1 s2 h1 h2 h3
    rw [List.foldlM_cons, List.foldlM_cons]
    obtain ⟨hE, hO⟩ := processRecord_R r s1 s2 h1 h2 h3
    cases hp1 : processRecord s1 r with
    | error e0 =>
      have hp2 : processRecord s2 r = .error e0 := (hE e0).mp hp1
      simp only [hp2, except_bind_error]
      exact ⟨fun e => trivial, fun t1 ht => absurd ht (by simp)⟩
    | ok u1 =>
      obtain ⟨u2, hp2, g1, g2, g3⟩ := hO u1 hp1
      simp only [hp2, except_bind_ok]
      exact ih u1 u2 g1 g2 g3

theorem mem_updateAssoc {β : Type} (l : List (String × β)) (k : String) (f : β → β)
    (p : String × β) (hp : p ∈ updateAssoc l k f) : ∃ q ∈ l, p.2 = q.2 ∨ p.2 = f q.2 := by
  rw [updateAssoc] at hp
  rcases List.mem_map.mp hp with ⟨q, hq, he⟩
  by_cases h : q.1 = k
  · rw [if_pos h] at he
    exact ⟨q, hq, Or.inr (by rw [← he])⟩
  · rw [if_neg h] at he
    exact ⟨q, hq, Or.inl (by rw [← he])⟩

theorem foldl_preserves {α : Type} (P : AggState → Prop) (f : AggState → α → AggState)
    (hf : ∀ st a, P st → P (f st a)) :
    ∀ (l : List α) (st : AggState), P st → P (List.foldl f st l) := by
  intro l
  induction l with
  | nil =>
    intro st h
    exact h
  | cons a rest ih =>
    intro st h
    rw [List.foldl_cons]
    exact ih _ (hf st a h)

/-- Updating category data in place preserves the raw/total invariant when
the updater does. -/
theorem updateAssoc_preserves_inv (l : List (String × CategoryData)) (k : String)
    (f : CategoryData → CategoryData)
    (hf : ∀ cd, (∃ r, cd.rawResponses = some r ∧ r.length = cd.totalResponses) →
      ∃ r, (f cd).rawResponses = some r ∧ r.length = (f cd).totalResponses)
    (h : ∀ p ∈ l, ∃ r, p.2.rawResponses = some r ∧ r.length = p.2.totalResponses) :
    ∀ p ∈ updateAssoc l k f, ∃ r, p.2.rawResponses = some r ∧
      r.length = p.2.totalResponses := by
  intro p hp
  rcases mem_updateAssoc l k f p hp with ⟨q, hq, hpq | hpq⟩
  · rw [hpq]
    exact h q hq
  · rw [hpq]
    exact hf q.2 (h q hq)

/-- `processText` keeps every category's raw-response list in sync with its
running total. -/
theorem processText_invariant (st : AggState) (ln : Option String) (dep : JSVal)
    (cat txt : String)
    (h : ∀ p ∈ st.byCategory, ∃ r, p.2.rawResponses = some r ∧
      r.length = p.2.totalResponses) :
    ∀ p ∈ (processText st ln dep cat txt).byCategory, ∃ r,
      p.2.rawResponses = some r ∧ r.length = p.2.totalResponses := by
  have horig : ∀ p ∈ updateAssoc st.byCategory cat (fun cd =>
      { cd with processingStats :=
          { cd.processingStats with
            originalCount := cd.processingStats.originalCount + 1 } }),
      ∃ r, p.2.rawResponses = some r ∧ r.length = p.2.totalResponses := by
    apply updateAssoc_preserves_inv _ _ _ _ h
    rintro cd ⟨r, hr, hl⟩
    exact ⟨r, hr, hl⟩
  rw [processText]
  by_cases hv : isValidTextString txt
  · rw [if_pos hv]
    have hvalid : ∀ p ∈ updateAssoc
        (updateAssoc st.byCategory cat (fun cd =>
          { cd with processingStats :=
              { cd.processingStats with
                originalCount := cd.processingStats.originalCount + 1 } }))
        cat (fun cd =>
          { cd with
            processingStats :=
              { cd.processingStats with validCount := cd.processingStats.validCount + 1 }
            rawResponses := cd.rawResponses.map (fun l => l ++
              [{ text := enhancedCleanTextResponse txt
                 normalizedText := normalizeForClustering (enhancedCleanTextResponse txt)
                 leader := ln
                 department := dep
                 fullOriginal := txt
                 semanticTokens := extractSemanticTokens (enhancedCleanTextResponse txt) }])
            totalResponses := cd.totalResponses + 1 }),
        ∃ r, p.2.rawResponses = some r ∧ r.length = p.2.totalResponses := by
      apply updateAssoc_preserves_inv _ _ _ _ horig
      rintro cd ⟨r, hr, hl⟩
      refine ⟨r ++
        [{ text := enhancedCleanTextResponse txt
           normalizedText := normalizeForClustering (enhancedCleanTextResponse txt)
           leader := ln
           department := dep
           fullOriginal := txt
           semanticTokens := extractSemanticTokens (enhancedCleanTextResponse txt) }], ?_, ?_⟩
      · show cd.rawResponses.map _ = _
        rw [hr]
        rfl
      · show _ = cd.totalResponses + 1
        rw [List.length_append, List.length_singleton]
        omega
    cases ln with
    | none => exact hvalid
    | some l =>
      by_cases hl : l = ""
      · subst hl
        simp only [ne_eq, not_true_eq_false, if_neg, ite_false]
        exact hvalid
      · simp only [ne_eq, hl, not_false_eq_true, if_pos, ite_true]
        exact hvalid
  · rw [if_neg hv]
    exact horig

/-- A successfully processed record keeps every category's raw-response list
in sync with its running total. -/
theorem processRecord_invariant (r : JSVal) (s t : AggState)
    (hok : processRecord s r = .ok t)
    (h : ∀ p ∈ s.byCategory, ∃ l, p.2.rawResponses = some l ∧
      l.length = p.2.totalResponses) :
    ∀ p ∈ t.byCategory, ∃ l, p.2.rawResponses = some l ∧
      l.length = p.2.totalResponses := by
  cases r with
  | null => exact absurd hok (by simp [processRecord])
  | undefined => exact absurd hok (by simp [processRecord])
  | bool b =>
    rw [processRecord_bool] at hok
    have ht1 : _ = t := Except.ok.inj hok
    rw [← ht1]
    exact h
  | num n =>
    rw [processRecord_num] at hok
    have ht1 : _ = t := Except.ok.inj hok
    rw [← ht1]
    exact h
  | str s2 =>
    revert hok
    simp only [processRecord]
    cases hx : extractLeaderName (jsGetField (JSVal.str s2) "_steamLeader") with
    | error e0 =>
      simp only [except_bind_error]
      intro hok
      exact absurd hok (by simp)
    | ok ln =>
      simp only [except_bind_ok]
      intro hok
      have ht1 : _ = t := Except.ok.inj hok
      rw [← ht1]
      apply foldl_preserves (fun st => ∀ p ∈ st.byCategory, ∃ r,
        p.2.rawResponses = some r ∧ r.length = p.2.totalResponses)
      · intro st2 m hst2
        apply foldl_preserves (fun st => ∀ p ∈ st.byCategory, ∃ r,
          p.2.rawResponses = some r ∧ r.length = p.2.totalResponses)
        · intro st3 txt hst3
          exact processText_invariant st3 ln _ m.category txt hst3
        · exact hst2
      · cases ln with
        | none => exact h
        | some l =>
          dsimp only
          by_cases hc : l ≠ "" ∧ (List.lookup l s.byLeader).isNone = true
          · rw [if_pos hc]
            exact h
          · rw [if_neg hc]
            exact h
  | obj fields =>
    revert hok
    simp only [processRecord]
    cases hx : extractLeaderName (jsGetField (JSVal.obj fields) "_steamLeader") with
    | error e0 =>
      simp only [except_bind_error]
      intro hok
      exact absurd hok (by simp)
    | ok ln =>
      simp only [except_bind_ok]
      intro hok
      have ht1 : _ = t := Except.ok.inj hok
      rw [← ht1]
      apply foldl_preserves (fun st => ∀ p ∈ st.byCategory, ∃ r,
        p.2.rawResponses = some r ∧ r.length = p.2.totalResponses)
      · intro st2 m hst2
        apply foldl_preserves (fun st => ∀ p ∈ st.byCategory, ∃ r,
          p.2.rawResponses = some r ∧ r.length = p.2.totalResponses)
        · intro st3 txt hst3
          exact processText_invariant st3 ln _ m.category txt hst3
        · exact hst2
      · cases ln with
        | none => exact h
        | some l =>
          dsimp only
          by_cases hc : l ≠ "" ∧ (List.lookup l s.byLeader).isNone = true
          · rw [if_pos hc]
            exact h
          · rw [if_neg hc]
            exact h

theorem foldlM_invariant :
    ∀ (l : List JSVal) (s t : AggState), List.foldlM processRecord s l = .ok t →
      (∀ p ∈ s.byCategory, ∃ r, p.2.rawResponses = some r ∧
        r.length = p.2.totalResponses) →
      ∀ p ∈ t.byCategory, ∃ r, p.2.rawResponses = some r ∧
        r.length = p.2.totalResponses := by
  intro l
  induction l with
  | nil =>
    intro s t hok h
    simp only [List.foldlM] at hok
    have ht1 : _ = t := Except.ok.inj hok
    rw [← ht1]
    exact h
  | cons r rest ih =>
    intro s t hok h
    rw [List.foldlM_cons] at hok
    cases hp : processRecord s r with
    | error e0 =>
      rw [hp, except_bind_error] at hok
      exact absurd hok (by simp)
    | ok u =>
      rw [hp, except_bind_ok] at hok
      exact ih u t hok (processRecord_invariant r s u hp h)

/-- What the clustering phase does to one category: characterised by whether
the category holds raw responses. -/
theorem finalizeCategory_char (cd : CategoryData) (l : List RawResponse)
    (hraw : cd.rawResponses = some l) (hlen : l.length = cd.totalResponses) :
    (cd.totalResponses ≠ 0 → (finalizeCategory cd).1.rawResponses = none) ∧
    (cd.totalResponses = 0 → (finalizeCategory cd).1.rawResponses = some []) ∧
    (finalizeCategory cd).1.totalResponses = cd.totalResponses := by
  rw [finalizeCategory, hraw]
  dsimp only
  by_cases hl : l.length > 0
  · rw [if_pos hl]
    refine ⟨fun h0 => rfl, fun h0 => ?_, rfl⟩
    rw [← hlen] at h0
    omega
  · rw [if_neg hl]
    have hnil : l = [] := by
      cases l with
      | nil => rfl
      | cons x xs => simp at hl
    refine ⟨fun h0 => ?_, fun h0 => ?_, rfl⟩
    · rw [← hlen, hnil] at h0
      simp at h0
    · show cd.rawResponses = some []
      rw [hraw, hnil]

theorem themeMergeCond_iff (c d : Cluster) :
    themeMergeCond c d = true ↔ specThemeWordsIoU c.theme d.theme > 0.6 := by
  have hu : jsDedup (jsDedup (jsSplitChar '_' c.theme) ++ jsDedup (jsSplitChar '_' d.theme)) ≠
      [] := by
    rw [Ne, jsDedup_eq_nil_iff, List.append_eq_nil]
    rintro ⟨ha, -⟩
    rw [jsDedup_eq_nil_iff] at ha
    exact jsSplitChar_ne_nil '_' c.theme ha
  have hup : (0 : Int) <
      ((jsDedup (jsDedup (jsSplitChar '_' c.theme) ++ jsDedup (jsSplitChar '_' d.theme))).length :
        Int) := by
    have := List.length_pos.mpr hu
    omega
  rw [themeMergeCond]
  rw [Frac.blt_iff_toRat_lt _ _ (by decide) (by
    show (0 : Int) < 1 *
      ((jsDedup (jsDedup (jsSplitChar '_' c.theme) ++ jsDedup (jsSplitChar '_' d.theme))).length :
        Int)
    omega)]
  rw [Frac.toRat_div, Frac.toRat_ofNat, Frac.toRat_ofNat, filter_inter_card, dedup_union_card]
  have h6 : ((⟨6, 10⟩ : Frac)).toRat = 0.6 := by norm_num [Frac.toRat]
  rw [h6, specThemeWordsIoU, specIoU]

set_option maxHeartbeats 2000000 in
theorem isValidTextString_iff (s : String) :
    isValidTextString s = true ↔ specValidString s := by
  have hts : jsTrim (jsLower s) = jsLower (jsTrim s) := jsTrim_jsLower s
  have hdata : (jsLower (jsTrim s)).data = (jsTrim s).data.map jsLowerChar := rfl
  have hdash : ∀ c : Char, (jsLowerChar c == '-') = (c == '-') :=
    jsLowerChar_pred_invariant (fun c => c == '-') (by decide)
  have hdot : ∀ c : Char, (jsLowerChar c == '.') = (c == '.') :=
    jsLowerChar_pred_invariant (fun c => c == '.') (by decide)
  have hdashiff : ((jsTrim (jsLower s)).data ≠ [] ∧
      (jsTrim (jsLower s)).data.all (fun c => c == '-') = true) ↔
      ((jsTrim s).data ≠ [] ∧ ∀ c ∈ (jsTrim s).data, c = '-') := by
    rw [hts, hdata]
    constructor
    · rintro ⟨h1, h2⟩
      refine ⟨fun hc => h1 (by rw [hc]; rfl), fun c hc => ?_⟩
      have := List.all_eq_true.mp h2 (jsLowerChar c) (List.mem_map.mpr ⟨c, hc, rfl⟩)
      rw [hdash c] at this
      exact eq_of_beq this
    · rintro ⟨h1, h2⟩
      refine ⟨fun hc => h1 (List.map_eq_nil_iff.mp hc), ?_⟩
      rw [List.all_eq_true]
      intro x hx
      rcases List.mem_map.mp hx with ⟨c, hc, rfl⟩
      rw [hdash c]
      exact beq_iff_eq.mpr (h2 c hc)
  have hdotiff : ((jsTrim (jsLower s)).data ≠ [] ∧
      (jsTrim (jsLower s)).data.all (fun c => c == '.') = true) ↔
      ((jsTrim s).data ≠ [] ∧ ∀ c ∈ (jsTrim s).data, c = '.') := by
    rw [hts, hdata]
    constructor
    · rintro ⟨h1, h2⟩
      refine ⟨fun hc => h1 (by rw [hc]; rfl), fun c hc => ?_⟩
      have := List.all_eq_true.mp h2 (jsLowerChar c) (List.mem_map.mpr ⟨c, hc, rfl⟩)
      rw [hdot c] at this
      exact eq_of_beq this
    · rintro ⟨h1, h2⟩
      refine ⟨fun hc => h1 (List.map_eq_nil_iff.mp hc), ?_⟩
      rw [List.all_eq_true]
      intro x hx
      rcases List.mem_map.mp hx with ⟨c, hc, rfl⟩
      rw [hdot c]
      exact beq_iff_eq.mpr (h2 c hc)
  have hC : (jsTrim (jsLower s) = "n/a" ∨ jsTrim (jsLower s) = "na" ∨
      jsTrim (jsLower s) = "none" ∨ jsTrim (jsLower s) = "no" ∨
      jsTrim (jsLower s) = "nothing" ∨ jsTrim (jsLower s) = "nil" ∨
      ((jsTrim (jsLower s)).data ≠ [] ∧
        (jsTrim (jsLower s)).data.all (fun c => c == '-') = true) ∨
      ((jsTrim (jsLower s)).data ≠ [] ∧
        (jsTrim (jsLower s)).data.all (fun c => c == '.') = true) ∨
      jsTrim (jsLower s) = "not applicable" ∨ jsTrim (jsLower s) = "no comment" ∨
      jsTrim (jsLower s) = "nope" ∨ jsTrim (jsLower s) = "nada") ↔
      specDenylisted (jsTrim s) := by
    rw [specDenylisted, specDenylist, hts]
    simp only [List.mem_cons, List.not_mem_nil, or_false]
    rw [← hts, hdashiff, hdotiff]
    generalize (jsTrim (jsLower s) = "n/a") = P1
    generalize (jsTrim (jsLower s) = "na") = P2
    generalize (jsTrim (jsLower s) = "none") = P3
    generalize (jsTrim (jsLower s) = "no") = P4
    generalize (jsTrim (jsLower s) = "nothing") = P5
    generalize (jsTrim (jsLower s) = "nil") = P6
    generalize (jsTrim (jsLower s) = "not applicable") = P7
    generalize (jsTrim (jsLower s) = "no comment") = P8
    generalize (jsTrim (jsLower s) = "nope") = P9
    generalize (jsTrim (jsLower s) = "nada") = P10
    generalize ((jsTrim s).data ≠ [] ∧ ∀ c ∈ (jsTrim s).data, c = '-') = Q1
    generalize ((jsTrim s).data ≠ [] ∧ ∀ c ∈ (jsTrim s).data, c = '.') = Q2
    clear hts hdata hdash hdot hdashiff hdotiff
    tauto
  simp only [isValidTextString, specValidString]
  by_cases hden : specDenylisted (jsTrim s)
  · rw [if_pos (hC.mpr hden)]
    simp [hden]
  · rw [if_neg (fun hc => hden (hC.mp hc))]
    simp [hden]

theorem mem_jsInsert {α : Type} [DecidableEq α] (l : List α) (x y : α) :
    y ∈ jsInsert l x ↔ y ∈ l ∨ y = x := by
  rw [jsInsert]
  by_cases h : x ∈ l
  · rw [if_pos h]
    constructor
    · exact Or.inl
    · rintro (hy | rfl)
      · exact hy
      · exact h
  · rw [if_neg h]
    simp

/-- A record whose processing merely inserts the defaulted department into the
metadata set leaves every claim-visible projection of the final aggregate
unchanged, and cannot make the run fail or succeed differently. -/
theorem agg_skip_head (r : JSVal) (xs : List JSVal)
    (hr : processRecord initState r =
      .ok { initState with
        uniqueDepartments := jsInsert initState.uniqueDepartments (.str "Unknown") }) :
    (∀ e, aggregateResponses (r :: xs) = .error e ↔ aggregateResponses xs = .error e) ∧
    (∀ a1 a2, aggregateResponses (r :: xs) = .ok a1 → aggregateResponses xs = .ok a2 →
      a1.byCategory = a2.byCategory ∧ a1.byLeader = a2.byLeader) := by
  have hfold : List.foldlM processRecord initState (r :: xs) =
      List.foldlM processRecord
        { initState with
          uniqueDepartments := jsInsert initState.uniqueDepartments (.str "Unknown") } xs := by
    rw [List.foldlM_cons, hr, except_bind_ok]
  obtain ⟨hE, hO⟩ := foldlM_R xs
    { initState with
      uniqueDepartments := jsInsert initState.uniqueDepartments (.str "Unknown") }
    initState rfl rfl rfl
  constructor
  · intro e
    simp only [aggregateResponses]
    rw [hfold]
    cases h1 : List.foldlM processRecord
        { initState with
          uniqueDepartments := jsInsert initState.uniqueDepartments (.str "Unknown") } xs with
    | error e0 =>
      have h2 := (hE e0).mp h1
      rw [h2, except_bind_error, except_bind_error]
    | ok u1 =>
      obtain ⟨u2, h2, g1, g2, g3⟩ := hO u1 h1
      rw [h2, except_bind_ok, except_bind_ok]
      exact iff_of_false (by simp) (by simp)
  · intro a1 a2 h1 h2
    simp only [aggregateResponses] at h1 h2
    rw [hfold] at h1
    cases hst : List.foldlM processRecord
        { initState with
          uniqueDepartments := jsInsert initState.uniqueDepartments (.str "Unknown") } xs with
    | error e0 =>
      rw [hst, except_bind_error] at h1
      exact absurd h1 (by simp)
    | ok u1 =>
      obtain ⟨u2, hst2, g1, g2, g3⟩ := hO u1 hst
      rw [hst, except_bind_ok] at h1
      rw [hst2, except_bind_ok] at h2
      have e1 := Except.ok.inj h1
      have e2 := Except.ok.inj h2
      have b1 : a1.byCategory =
          (u1.byCategory.map (fun p => (p.1, finalizeCategory p.2))).map
            (fun p => (p.1, (p.2).1)) := by rw [← e1]
      have b2 : a2.byCategory =
          (u2.byCategory.map (fun p => (p.1, finalizeCategory p.2))).map
            (fun p => (p.1, (p.2).1)) := by rw [← e2]
      have l1 : a1.byLeader = u1.byLeader := by rw [← e1]
      have l2 : a2.byLeader = u2.byLeader := by rw [← e2]
      exact ⟨by rw [b1, b2, g1], by rw [l1, l2, g2]⟩

/-- Every category starts with an intact empty raw-response list. -/
theorem initState_invariant :
    ∀ p ∈ initState.byCategory, ∃ l, p.2.rawResponses = some l ∧
      l.length = p.2.totalResponses := by
  intro p hp
  simp only [initState] at hp
  rcases List.mem_map.mp hp with ⟨m, hm, he⟩
  refine ⟨[], ?_, ?_⟩
  · rw [← he]
  · rw [← he]
    rfl

/-! ## Claim theorems -/

/-- Claim C1: for a category, the sum of `count` over all clusters produced by
the clustering pass and the post-merge pass, taken before the top-40
truncation, equals the number of valid responses extracted for the category —
each cluster counts exactly the responses absorbed into it, seed included. -/
theorem claim_c1_count_conservation (responses : List RawResponse) :
    sumCounts (preTruncationClusters responses) = responses.length := by
  rw [preTruncationClusters, postProcess_sum, clusterLoop_sum]
  exact (List.perm_insertionSort byTextLenDesc responses).length_eq

/-- Claim C9: for every input, the cluster list a category emits is sorted by
descending `count` and holds at most 40 clusters. -/
theorem claim_c9_sorted_capped (responses : List RawResponse) :
    (enhancedClusterResponsesWithFullExamples responses).length ≤ 40 ∧
    List.Sorted byCountDesc (enhancedClusterResponsesWithFullExamples responses) := by
  rw [enhancedClusterResponsesWithFullExamples]
  by_cases h0 : responses.length = 0
  · rw [if_pos h0]
    exact ⟨by simp, List.sorted_nil⟩
  · rw [if_neg h0]
    refine ⟨?_, ?_⟩
    · rw [List.length_take]
      exact min_le_left _ _
    · exact List.Pairwise.sublist (List.take_sublist _ _)
        (List.sorted_insertionSort byCountDesc _)

/-- Claim C7: aggregating the empty input throws nothing and yields all six
configured categories, each with an empty cluster list and zero total. -/
theorem claim_c7_empty_aggregate :
    (aggregateResponses []).map (fun agg =>
        agg.byCategory.map (fun p => (p.1, p.2.clusters, p.2.totalResponses))) =
      .ok [("fulfilling_work", ([] : List Cluster), 0), ("role_clarity", [], 0),
        ("obstacles", [], 0), ("empowerment_changes", [], 0), ("bold_ideas", [], 0),
        ("leadership_support", [], 0)] := by decide

/-- Claim C2: the clustering pass absorbs exactly the later responses whose
combined score `0.3·jaccard + 0.4·semantic + 0.3·theme` (with the set-based
similarity readings of the claim) exceeds 0.45, and each absorption increments
`count`, appends the candidate `fullOriginal` to `examples` only below 8
stored, unions the leader and department sets, and unions the semantic
signature with the candidate tokens. -/
theorem claim_c2_absorption_rule (seed other : RawResponse) (cluster : WorkCluster)
    (rest : List RawResponse) :
    absorbPass seed cluster rest =
      (List.foldl absorbOne cluster (rest.filter (fun r => similarCond seed r)),
        rest.filter (fun r => !similarCond seed r)) ∧
    (similarCond seed other = true ↔ specCombinedScore seed other > 0.45) ∧
    (absorbOne cluster other).count = cluster.count + 1 ∧
    (absorbOne cluster other).examples =
      (if cluster.examples.length < 8 then cluster.examples ++ [other.fullOriginal]
        else cluster.examples) ∧
    (∀ x, x ∈ (absorbOne cluster other).leaders ↔
      x ∈ cluster.leaders ∨ ∃ l2, other.leader = some l2 ∧ l2 ≠ "" ∧ x = some l2) ∧
    (∀ x, x ∈ (absorbOne cluster other).departments ↔
      x ∈ cluster.departments ∨ (jsTruthy other.department = true ∧ x = other.department)) ∧
    (absorbOne cluster other).semanticSignature.Nodup ∧
    (∀ x, x ∈ (absorbOne cluster other).semanticSignature ↔
      x ∈ cluster.semanticSignature ∨ x ∈ other.semanticTokens) := by
  refine ⟨absorbPass_eq seed cluster rest, similarCond_iff_spec seed other, rfl, rfl,
    ?_, ?_, nodup_jsDedup _, ?_⟩
  · intro x
    show x ∈ (match other.leader with
        | some l => if l ≠ "" then jsInsert cluster.leaders (some l) else cluster.leaders
        | none => cluster.leaders) ↔ _
    cases hl : other.leader with
    | none => simp
    | some l =>
      by_cases he : l = ""
      · subst he
        simp
      · simp [he, mem_jsInsert]
  · intro x
    show x ∈ (if jsTruthy other.department then jsInsert cluster.departments other.department
        else cluster.departments) ↔ _
    by_cases ht : jsTruthy other.department
    · simp [ht, mem_jsInsert]
    · simp [ht]
  · intro x
    show x ∈ jsDedup (cluster.semanticSignature ++ other.semanticTokens) ↔ _
    rw [mem_jsDedup, List.mem_append]

/-- Claim C3: the post-merge pass folds into the current cluster exactly the
later clusters whose theme-word IoU with the original first cluster exceeds
0.6, and a merge sums the counts, dedups and caps the example union at 8, sums
the leader and department counts, and adopts the bigger cluster label. -/
theorem claim_c3_merge_rule (cluster cur other : Cluster) (rest : List Cluster) :
    mergePass cluster cur rest =
      (List.foldl (mergeInto cluster) cur (rest.filter (fun d => themeMergeCond cluster d)),
        rest.filter (fun d => !themeMergeCond cluster d)) ∧
    (themeMergeCond cluster other = true ↔
      specThemeWordsIoU cluster.theme other.theme > 0.6) ∧
    (mergeInto cluster cur other).count = cur.count + other.count ∧
    (mergeInto cluster cur other).examples = (jsDedup (cur.examples ++ other.examples)).take 8 ∧
    (jsDedup (cur.examples ++ other.examples)).Nodup ∧
    (mergeInto cluster cur other).examples.length ≤ 8 ∧
    (mergeInto cluster cur other).leaderCount = cur.leaderCount + other.leaderCount ∧
    (mergeInto cluster cur other).departmentCount = cur.departmentCount + other.departmentCount ∧
    (mergeInto cluster cur other).theme =
      (if other.count > cluster.count then other.theme else cur.theme) :=
  ⟨mergePass_eq cluster cur rest, themeMergeCond_iff cluster other, rfl, rfl,
    nodup_jsDedup _, mergeInto_examples_len cluster cur other, rfl, rfl, rfl⟩

/-- Claim C4: the theme label equals the claim reading — highest-scoring fixed
dictionary with the first dictionary winning ties, falling back to the first
two long non-stoplist words joined by an underscore and then to "other" — and
a response carrying "empowered" and no keyword of any other dictionary is
labelled `autonomy_empowerment`. -/
theorem claim_c4_theme_label (text : String) :
    enhancedExtractTheme text = specExtractTheme text ∧
    (("empowered" ∈ jsSplitWs (jsLower text) ∧
      ∀ p ∈ themeKeywords, p.1 ≠ "autonomy_empowerment" →
        ∀ k ∈ p.2, k ∉ jsSplitWs (jsLower text)) →
      enhancedExtractTheme text = "autonomy_empowerment") := by
  refine ⟨enhancedExtractTheme_eq_spec text, ?_⟩
  rintro ⟨hemp, hothers⟩
  have hnames4 : ∀ p ∈ themeKeywords.take 4, p.1 ≠ "autonomy_empowerment" := by decide
  have hnames5 : ∀ p ∈ themeKeywords.drop 5, p.1 ≠ "autonomy_empowerment" := by decide
  have hzero4 : ∀ p ∈ themeKeywords.take 4,
      themeScore (jsSplitWs (jsLower text)) p.2 = 0 :=
    fun p hp => themeScore_eq_zero _ _
      (hothers p (List.mem_of_mem_take hp) (hnames4 p hp))
  have hzero5 : ∀ p ∈ themeKeywords.drop 5,
      themeScore (jsSplitWs (jsLower text)) p.2 = 0 :=
    fun p hp => themeScore_eq_zero _ _
      (hothers p (List.mem_of_mem_drop hp) (hnames5 p hp))
  have hpos : 0 < themeScore (jsSplitWs (jsLower text)) autonomyPair.2 :=
    themeScore_pos _ _ "empowered" (by decide) hemp
  have h1 : firstMaxBy (fun p : String × List String =>
      themeScore (jsSplitWs (jsLower text)) p.2)
      (autonomyPair :: themeKeywords.drop 5) = some autonomyPair := by
    apply firstMaxBy_cons_of_le
    intro x hx
    show themeScore (jsSplitWs (jsLower text)) x.2 ≤
      themeScore (jsSplitWs (jsLower text)) autonomyPair.2
    rw [hzero5 x hx]
    exact Nat.zero_le _
  have h2 : firstMaxBy (fun p : String × List String =>
      themeScore (jsSplitWs (jsLower text)) p.2) themeKeywords = some autonomyPair := by
    have hsplit : themeKeywords =
        themeKeywords.take 4 ++ (autonomyPair :: themeKeywords.drop 5) := rfl
    rw [hsplit]
    apply firstMaxBy_of_zeros
    · intro x hx
      show themeScore (jsSplitWs (jsLower text)) x.2 = 0
      exact hzero4 x hx
    · exact h1
    · exact hpos
  rw [enhancedExtractTheme_eq_spec, specExtractTheme]
  simp only [h2, Option.elim_some]
  rw [if_pos hpos]
  rfl

/-- Witness for the C4 theorem at a concrete response. -/
theorem claim_c4_theme_label_witness :
    enhancedExtractTheme "feeling empowered daily" = "autonomy_empowerment" :=
  (claim_c4_theme_label "feeling empowered daily").2 ⟨by decide, by decide⟩

/-- Claim C5: a candidate contributes a response exactly when it is a string
that, after trimming, is neither case-insensitively denylisted nor of length
8 or less; denylisted strings are dropped, a valid 9-character string is
retained, and every string of trimmed length at most 8 is dropped. -/
theorem claim_c5_validity (v : JSVal) :
    (isValidTextResponse v = true ↔ ∃ s, v = .str s ∧ specValidString s) ∧
    isValidTextResponse (.str "N/A") = false ∧
    isValidTextResponse (.str "  none  ") = false ∧
    isValidTextResponse (.str itsOkayString) = true ∧
    (∀ s : String, jsLength (jsTrim s) ≤ 8 → isValidTextResponse (.str s) = false) := by
  refine ⟨?_, by decide, by decide, by decide, ?_⟩
  · cases v with
    | str s =>
      show isValidTextString s = true ↔ ∃ t, JSVal.str s = JSVal.str t ∧ specValidString t
      rw [isValidTextString_iff]
      constructor
      · exact fun h => ⟨s, rfl, h⟩
      · rintro ⟨t, ht, hv⟩
        have h2 := JSVal.str.inj ht
        rw [h2]
        exact hv
    | null => simp [isValidTextResponse]
    | undefined => simp [isValidTextResponse]
    | bool b => simp [isValidTextResponse]
    | num n => simp [isValidTextResponse]
    | obj fields => simp [isValidTextResponse]
  · intro s hlen
    show isValidTextString s = false
    cases hb : isValidTextString s with
    | false => rfl
    | true =>
      have h2 := (isValidTextString_iff s).mp hb
      have h3 := h2.2
      omega

/-- Witness for the C5 theorem at concrete strings. -/
theorem claim_c5_validity_witness :
    isValidTextResponse (.str "short") = false ∧
    isValidTextResponse (.str "  none  ") = false :=
  ⟨(claim_c5_validity (.str "short")).2.2.2.2 "short" (by decide),
    (claim_c5_validity (.str "  none  ")).2.2.1⟩

/-- Claim C8 (counterexample): two identical responses land in one cluster
whose `examples` repeats the same `fullOriginal` twice, so the emitted
examples are not duplicate-free. -/
theorem claim_c8_examples_counterexample :
    (enhancedClusterResponsesWithFullExamples
        [duplicateRawResponse, duplicateRawResponse]).map Cluster.examples = [["zz", "zz"]] ∧
    ¬ (["zz", "zz"] : List String).Nodup := by decide

/-- Claim C8 (amended): every emitted cluster keeps at most 8 examples and
each one is verbatim the `fullOriginal` of some input response; the claimed
deduplication does not hold (see the counterexample). -/
theorem claim_c8_examples_amended (responses : List RawResponse) (cl : Cluster)
    (hcl : cl ∈ enhancedClusterResponsesWithFullExamples responses) :
    cl.examples.length ≤ 8 ∧
    ∀ e ∈ cl.examples, e ∈ responses.map RawResponse.fullOriginal := by
  rw [enhancedClusterResponsesWithFullExamples] at hcl
  by_cases h0 : responses.length = 0
  · rw [if_pos h0] at hcl
    exact absurd hcl (List.not_mem_nil cl)
  · rw [if_neg h0] at hcl
    have h1 : cl ∈ List.insertionSort byCountDesc (preTruncationClusters responses) :=
      List.take_subset _ _ hcl
    have h2 : cl ∈ preTruncationClusters responses :=
      (List.perm_insertionSort byCountDesc _).mem_iff.mp h1
    rw [preTruncationClusters] at h2
    have hsorted := clusterLoopF_examples
      (List.insertionSort byTextLenDesc responses).length
      (List.insertionSort byTextLenDesc responses) le_rfl
    have hall : ∀ c ∈ clusterLoop (List.insertionSort byTextLenDesc responses),
        c.examples.length ≤ 8 := fun c hc => (hsorted c hc).1
    have h3 := postProcess_examples _ hall cl h2
    refine ⟨h3.1, fun e he => ?_⟩
    rcases h3.2 e he with ⟨d, hd, he2⟩
    have h4 := (hsorted d hd).2 e he2
    rcases List.mem_map.mp h4 with ⟨r, hr, hre⟩
    exact List.mem_map.mpr
      ⟨r, (List.perm_insertionSort byTextLenDesc responses).mem_iff.mp hr, hre⟩

/-- Witness for the amended C8 theorem at a concrete run. -/
theorem claim_c8_examples_amended_witness :
    exampleCluster.examples.length ≤ 8 ∧
    ∀ e ∈ exampleCluster.examples,
      e ∈ [duplicateRawResponse].map RawResponse.fullOriginal :=
  claim_c8_examples_amended [duplicateRawResponse] exampleCluster (by decide)

/-- Claim C6 (counterexample): a `null` record is fatal — the run throws the
property-read TypeError and the valid record after it is never processed, so
invalid records are not skipped. -/
theorem claim_c6_skip_counterexample :
    aggregateResponses [.null, obstaclesRecord] =
      .error "TypeError: Cannot read properties of null" := rfl

/-- Claim C6 (amended): a `null` or `undefined` record throws the TypeError
and aborts the whole run; a non-mapping primitive record (a number or a
boolean) is skipped — the run fails or succeeds exactly as without it, and a
success carries the same per-category data and per-leader data, the only
effect being the department metadata set. -/
theorem claim_c6_skip_amended :
    (∀ rest : List JSVal,
      aggregateResponses (.null :: rest) =
        .error "TypeError: Cannot read properties of null" ∧
      aggregateResponses (.undefined :: rest) =
        .error "TypeError: Cannot read properties of undefined") ∧
    (∀ (k : Int) (xs : List JSVal),
      (∀ e, aggregateResponses (.num k :: xs) = .error e ↔
        aggregateResponses xs = .error e) ∧
      ∀ a1 a2, aggregateResponses (.num k :: xs) = .ok a1 →
        aggregateResponses xs = .ok a2 →
        a1.byCategory = a2.byCategory ∧ a1.byLeader = a2.byLeader) ∧
    (∀ (b : Bool) (xs : List JSVal),
      (∀ e, aggregateResponses (.bool b :: xs) = .error e ↔
        aggregateResponses xs = .error e) ∧
      ∀ a1 a2, aggregateResponses (.bool b :: xs) = .ok a1 →
        aggregateResponses xs = .ok a2 →
        a1.byCategory = a2.byCategory ∧ a1.byLeader = a2.byLeader) :=
  ⟨fun _ => ⟨rfl, rfl⟩,
    fun k xs => agg_skip_head (.num k) xs (processRecord_num initState k),
    fun b xs => agg_skip_head (.bool b) xs (processRecord_bool initState b)⟩

/-- Witness for the amended C6 theorem at a concrete skipped record. -/
theorem claim_c6_skip_amended_witness :
    ∃ a1 a2 : Aggregate, aggregateResponses [JSVal.num 7] = .ok a1 ∧
      aggregateResponses [] = .ok a2 ∧ a1.byCategory = a2.byCategory ∧
      a1.byLeader = a2.byLeader := by
  cases h1 : aggregateResponses [JSVal.num 7] with
  | error e =>
    have hs : (aggregateResponses [JSVal.num 7]).toOption.isSome = true := by decide
    rw [h1] at hs
    simp [Except.toOption] at hs
  | ok a1 =>
    cases h2 : aggregateResponses ([] : List JSVal) with
    | error e =>
      have hs : (aggregateResponses ([] : List JSVal)).toOption.isSome = true := by decide
      rw [h2] at hs
      simp [Except.toOption] at hs
    | ok a2 =>
      obtain ⟨g1, g2⟩ := (claim_c6_skip_amended.2.1 7 []).2 a1 a2 h1 h2
      exact ⟨a1, a2, rfl, rfl, g1, g2⟩

/-- Claim C10: in a successful aggregation, a category that received at least
one valid response emits its data with the raw-response list deleted, while a
category that received none keeps an empty raw-response list — the emitted
shape differs between empty and non-empty categories. -/
theorem claim_c10_raw_responses_shape (input : List JSVal) (agg : Aggregate)
    (hok : aggregateResponses input = .ok agg) :
    ∀ p ∈ agg.byCategory,
      (p.2.totalResponses ≠ 0 → p.2.rawResponses = none) ∧
      (p.2.totalResponses = 0 → p.2.rawResponses = some []) := by
  simp only [aggregateResponses] at hok
  cases hst : List.foldlM processRecord initState input with
  | error e =>
    rw [hst, except_bind_error] at hok
    exact absurd hok (by simp)
  | ok st =>
    rw [hst, except_bind_ok] at hok
    have he := Except.ok.inj hok
    have hinv := foldlM_invariant input initState st hst initState_invariant
    intro p hp
    have hbc : agg.byCategory =
        (st.byCategory.map (fun q => (q.1, finalizeCategory q.2))).map
          (fun q => (q.1, (q.2).1)) := by rw [← he]
    rw [hbc, List.map_map] at hp
    rcases List.mem_map.mp hp with ⟨q, hq, hqe⟩
    rcases hinv q hq with ⟨l, hraw, hlen⟩
    obtain ⟨f1, f2, f3⟩ := finalizeCategory_char q.2 l hraw hlen
    rw [← hqe]
    dsimp only [Function.comp]
    constructor
    · intro h0
      rw [f3] at h0
      exact f1 h0
    · intro h0
      rw [f3] at h0
      exact f2 h0

/-- Witness for the C10 theorem at a concrete successful run. -/
theorem claim_c10_raw_responses_shape_witness :
    ∃ agg : Aggregate, aggregateResponses [obstaclesRecord] = .ok agg ∧
      ∀ p ∈ agg.byCategory,
        (p.2.totalResponses ≠ 0 → p.2.rawResponses = none) ∧
        (p.2.totalResponses = 0 → p.2.rawResponses = some []) := by
  cases h : aggregateResponses [obstaclesRecord] with
  | error e =>
    have hs : (aggregateResponses [obstaclesRecord]).toOption.isSome = true := by decide
    rw [h] at hs
    simp [Except.toOption] at hs
  | ok agg =>
    exact ⟨agg, rfl, claim_c10_raw_responses_shape [obstaclesRecord] agg h⟩
